import Mathlib

/-!
Verification of the Catan rules engine (`src/catan_api`) against its
natural-language specification.

The C++ sources are shallowly embedded:

* machine `int` becomes `Int`;
* `std::unordered_map` becomes an association list (`List (κ × α)`) with
  first-match lookup and first-match in-place update, which matches the
  map semantics whenever the key list is duplicate-free (board maps are
  built with distinct raw keys);
* every HTTP command handler becomes a function `Game → args → Except String Game`:
  in the C++ every error return of a handler happens before any mutation of the
  game, so `.error` models "error response, game untouched" and `.ok g` models
  "success response with final state g";
* randomness (dice values, shuffles, steal choice) is passed in as explicit
  parameters, since the claims quantify over the random outcome;
* hex directions are restricted to `Fin 6`: every board key and every input
  appearing in a claim uses a direction in 0..5, and the C++ indexes
  `HEX_DIRS[d]` (undefined behaviour outside 0..5).

All definitions below are translated from the source files
(`catan_types.h`, `game_logic.cpp`, `catan_game.cpp`, `server.cpp`)
except where a doc comment says otherwise.
-/

namespace Catan

/-- Axial hex coordinate, from `catan_types.h` (`struct HexCoord`). -/
structure HexCoord where
  q : Int
  r : Int
deriving DecidableEq, Repr

/-- Vertex identified by adjacent hex + corner direction 0-5
(`struct VertexCoord`). -/
structure VertexCoord where
  hex : HexCoord
  direction : Fin 6
deriving DecidableEq, Repr

/-- Edge identified by adjacent hex + edge direction 0-5 (`struct EdgeCoord`). -/
structure EdgeCoord where
  hex : HexCoord
  direction : Fin 6
deriving DecidableEq, Repr

/-- Direction offsets for axial hex coordinates: the table `HEX_DIRS`
at the top of `game_logic.cpp` (identical to `HEX_DIRECTIONS` in
`catan_game.cpp`). -/
def hexDir : Fin 6 → HexCoord
  | 0 => ⟨0, -1⟩   -- N
  | 1 => ⟨1, -1⟩   -- NE
  | 2 => ⟨1, 0⟩    -- SE
  | 3 => ⟨0, 1⟩    -- S
  | 4 => ⟨-1, 1⟩   -- SW
  | 5 => ⟨-1, 0⟩   -- NW

/-- Hex displaced one step in direction `d`: the expression
`{h.q + HEX_DIRS[d][0], h.r + HEX_DIRS[d][1]}` used throughout
`game_logic.cpp`. -/
def hexPlus (h : HexCoord) (d : Fin 6) : HexCoord :=
  ⟨h.q + (hexDir d).q, h.r + (hexDir d).r⟩

/-- `getAdjacentVertices` (vertex overload), `game_logic.cpp` lines 36-54. -/
def getAdjacentVertices (v : VertexCoord) : List VertexCoord :=
  [⟨v.hex, v.direction + 1⟩, ⟨v.hex, v.direction + 5⟩,
   ⟨hexPlus v.hex v.direction, v.direction + 3⟩]

/-- `getEdgesAtVertex`, `game_logic.cpp` lines 56-71. -/
def getEdgesAtVertex (v : VertexCoord) : List EdgeCoord :=
  [⟨v.hex, v.direction⟩, ⟨v.hex, v.direction + 5⟩,
   ⟨hexPlus v.hex v.direction, v.direction + 4⟩]

/-- `getVerticesOfEdge`, `game_logic.cpp` lines 73-79. -/
def getVerticesOfEdge (e : EdgeCoord) : VertexCoord × VertexCoord :=
  (⟨e.hex, e.direction⟩, ⟨e.hex, e.direction + 1⟩)

/-- `verticesEqual`, `game_logic.cpp` lines 81-96. -/
def verticesEqual (v1 v2 : VertexCoord) : Bool :=
  if v1.hex = v2.hex ∧ v1.direction = v2.direction then true
  else if hexPlus v1.hex v1.direction = v2.hex ∧ v1.direction + 3 = v2.direction then true
  else if hexPlus v1.hex (v1.direction + 5) = v2.hex ∧ v1.direction + 4 = v2.direction then true
  else false

/-- `edgesEqual`, `game_logic.cpp` lines 98-107. -/
def edgesEqual (e1 e2 : EdgeCoord) : Bool :=
  if e1.hex = e2.hex ∧ e1.direction = e2.direction then true
  else if hexPlus e1.hex e1.direction = e2.hex ∧ e1.direction + 3 = e2.direction then true
  else false

/-- `getHexesAdjacentToVertex`, `catan_game.cpp` lines 233-255: the
(up to) three hexes sharing a vertex. -/
def getHexesAdjacentToVertex (v : VertexCoord) : List HexCoord :=
  [v.hex, hexPlus v.hex v.direction, hexPlus v.hex (v.direction + 5)]

/-!
Geometric grounding.  To reason about "the same geometric vertex" we
assign every hex centre and every (hex, corner) pair a point of an
integer lattice: hex `(q, r)` has centre `(2q + r, 3r)` (an affine image
of the standard pointy-top axial layout, so that all corner points are
integral).  The corner offsets are forced by the source's own geometry:

* `generateRandomBoard`/`getHexesAdjacentToVertex` make corner `d` the
  point common to hex `h` and its neighbours in directions `d` and `d-1`;
* `getVerticesOfEdge` makes edge `d` run between corners `d` and `d+1`;
* `edgesEqual` makes edge `d` of `h` the border between `h` and its
  neighbour in direction `d`.

Solving these constraints on the lattice gives the unique offset table
below (corner d sits where the borders toward directions d-1 and d meet).
`vertexPos` is therefore the position function the source code itself
implies; the consistency lemmas proved later check it against
`getHexesAdjacentToVertex`, `getEdgesAtVertex` and `edgesEqual`.
-/

/-- Lattice centre of a hex: `(2q + r, 3r)`. -/
def hexCenter (h : HexCoord) : Int × Int :=
  (2 * h.q + h.r, 3 * h.r)

/-- Lattice offset of corner `d` from its hex centre. -/
def cornerOff : Fin 6 → Int × Int
  | 0 => (-1, -1)
  | 1 => (0, -2)
  | 2 => (1, -1)
  | 3 => (1, 1)
  | 4 => (0, 2)
  | 5 => (-1, 1)

/-- Geometric position of a vertex coordinate on the lattice.  Two
`VertexCoord`s denote the same geometric vertex exactly when their
positions coincide. -/
def vertexPos (v : VertexCoord) : Int × Int :=
  ((hexCenter v.hex).1 + (cornerOff v.direction).1,
   (hexCenter v.hex).2 + (cornerOff v.direction).2)

/-- Unordered pair of endpoint positions of an edge coordinate, as a
sum of the two endpoint positions (endpoints of distinct edges never
share a sum on this lattice shape, and equal sums of adjacent-corner
pairs pin down the pair). -/
def edgePosSum (e : EdgeCoord) : Int × Int :=
  let p := getVerticesOfEdge e
  ((vertexPos p.1).1 + (vertexPos p.2).1, (vertexPos p.1).2 + (vertexPos p.2).2)

/-! Data model, from `catan_types.h`. -/

/-- `enum class Resource`. -/
inductive Resource where
  | none | wood | brick | wheat | sheep | ore
deriving DecidableEq, Repr

/-- `enum class HexType`. -/
inductive HexType where
  | desert | forest | hills | fields | pasture | mountains | ocean
deriving DecidableEq, Repr

/-- `enum class Building`. -/
inductive Building where
  | none | settlement | city
deriving DecidableEq, Repr

/-- `enum class DevCardType`. -/
inductive DevCardType where
  | knight | victoryPoint | roadBuilding | yearOfPlenty | monopoly
deriving DecidableEq, Repr

/-- `enum class PortType`. -/
inductive PortType where
  | generic | wood | brick | wheat | sheep | ore
deriving DecidableEq, Repr

/-- `enum class GamePhase`. -/
inductive GamePhase where
  | waitingForPlayers | setup | setupReverse | rolling | robber | stealing
  | mainTurn | trading | finished
deriving DecidableEq, Repr

/-- `struct ResourceHand`, five int counters. -/
structure ResourceHand where
  wood : Int
  brick : Int
  wheat : Int
  sheep : Int
  ore : Int
deriving DecidableEq, Repr

/-- `ResourceHand::total`. -/
def ResourceHand.total (h : ResourceHand) : Int :=
  h.wood + h.brick + h.wheat + h.sheep + h.ore

/-- The const `ResourceHand::operator[]`: read a counter (`None` reads 0). -/
def ResourceHand.get (h : ResourceHand) : Resource → Int
  | .wood => h.wood
  | .brick => h.brick
  | .wheat => h.wheat
  | .sheep => h.sheep
  | .ore => h.ore
  | .none => 0

/-- Writing through the non-const `ResourceHand::operator[]`: add `n` to a
counter.  Faithful to the C++ quirk that the `None` case returns a
reference to `wood` (the handlers guard against `None` before writing). -/
def ResourceHand.add (h : ResourceHand) (r : Resource) (n : Int) : ResourceHand :=
  match r with
  | .wood => { h with wood := h.wood + n }
  | .brick => { h with brick := h.brick + n }
  | .wheat => { h with wheat := h.wheat + n }
  | .sheep => { h with sheep := h.sheep + n }
  | .ore => { h with ore := h.ore + n }
  | .none => { h with wood := h.wood + n }

/-- `struct Player` (the fields the rules engine reads; session/name/timestamp
bookkeeping is transport-layer state that no claim touches). -/
structure Player where
  id : Int
  resources : ResourceHand
  devCards : List DevCardType
  settlementsRemaining : Int := 5
  citiesRemaining : Int := 4
  roadsRemaining : Int := 15
  knightsPlayed : Int := 0
  hasLongestRoad : Bool := false
  hasLargestArmy : Bool := false
deriving DecidableEq, Repr

/-- `struct Hex`. -/
structure Hex where
  coord : HexCoord
  type : HexType
  numberToken : Int
  hasRobber : Bool
deriving DecidableEq, Repr

/-- `struct Vertex`. -/
structure Vertex where
  coord : VertexCoord
  building : Building
  ownerPlayerId : Int
deriving DecidableEq, Repr

/-- `struct Edge`. -/
structure Edge where
  coord : EdgeCoord
  hasRoad : Bool
  ownerPlayerId : Int
deriving DecidableEq, Repr

/-- `struct Port`. -/
structure Port where
  vertex1 : VertexCoord
  vertex2 : VertexCoord
  type : PortType
deriving DecidableEq, Repr

/-- `std::unordered_map::find`: first-match lookup in an association list. -/
def alookup {κ α : Type} [DecidableEq κ] (k : κ) : List (κ × α) → Option α
  | [] => Option.none
  | (k', a) :: rest => if k' = k then some a else alookup k rest

/-- Mutating a map entry through the iterator returned by `find`:
update the first entry with the given key, leave the list unchanged if
the key is absent. -/
def aupdate {κ α : Type} [DecidableEq κ] (k : κ) (f : α → α) :
    List (κ × α) → List (κ × α)
  | [] => []
  | (k', a) :: rest =>
      if k' = k then (k', f a) :: rest else (k', a) :: aupdate k f rest

/-- `struct GameBoard`. -/
structure GameBoard where
  hexes : List (HexCoord × Hex)
  vertices : List (VertexCoord × Vertex)
  edges : List (EdgeCoord × Edge)
  ports : List Port
  robberLocation : HexCoord
deriving DecidableEq, Repr

/-- `struct DiceRoll`. -/
structure DiceRoll where
  die1 : Int
  die2 : Int
deriving DecidableEq, Repr

/-- `struct Game` (fields the claims touch; ids, names, timestamps and the
mutex are transport-layer state). -/
structure Game where
  board : GameBoard
  players : List Player
  devCardDeck : List DevCardType
  phase : GamePhase := .waitingForPlayers
  currentPlayerIndex : Int := 0
  lastRoll : Option DiceRoll := Option.none
  devCardPlayedThisTurn : Bool := false
  longestRoadLength : Int := 4
  longestRoadPlayerId : Int := -1
  largestArmySize : Int := 2
  largestArmyPlayerId : Int := -1
  maxPlayers : Int := 4
deriving DecidableEq, Repr

/-- `Game::getPlayerById`: first player in the roster with the id. -/
def Game.getPlayerById (g : Game) (pid : Int) : Option Player :=
  g.players.find? (fun p => p.id = pid)

/-- Mutation through the pointer returned by `getPlayerById`: update the
first player with the given id (no-op when absent). -/
def updatePlayer (pid : Int) (f : Player → Player) : List Player → List Player
  | [] => []
  | p :: rest =>
      if p.id = pid then f p :: rest else p :: updatePlayer pid f rest

/-- `hexTypeToResource`, `catan_game.cpp` lines 257-266. -/
def hexTypeToResource : HexType → Resource
  | .forest => .wood
  | .hills => .brick
  | .fields => .wheat
  | .pasture => .sheep
  | .mountains => .ore
  | _ => .none

/-! Building costs and resource helpers, `server.cpp` lines 40-59. -/

/-- `ROAD_COST` = 1 wood, 1 brick. -/
def roadCost : ResourceHand := ⟨1, 1, 0, 0, 0⟩

/-- `SETTLEMENT_COST` = 1 wood, 1 brick, 1 wheat, 1 sheep. -/
def settlementCost : ResourceHand := ⟨1, 1, 1, 1, 0⟩

/-- `CITY_COST` = 2 wheat, 3 ore. -/
def cityCost : ResourceHand := ⟨0, 0, 2, 0, 3⟩

/-- `DEV_CARD_COST` = 1 wheat, 1 sheep, 1 ore. -/
def devCardCost : ResourceHand := ⟨0, 0, 1, 1, 1⟩

/-- `canAfford`, `server.cpp` lines 45-51. -/
def canAfford (have_ cost : ResourceHand) : Bool :=
  cost.wood ≤ have_.wood ∧ cost.brick ≤ have_.brick ∧ cost.wheat ≤ have_.wheat ∧
  cost.sheep ≤ have_.sheep ∧ cost.ore ≤ have_.ore

/-- `subtractResources`, `server.cpp` lines 53-59. -/
def subtractResources (from_ cost : ResourceHand) : ResourceHand :=
  ⟨from_.wood - cost.wood, from_.brick - cost.brick, from_.wheat - cost.wheat,
   from_.sheep - cost.sheep, from_.ore - cost.ore⟩

/-! Port trading logic, `game_logic.cpp` lines 109-158. -/

/-- One vertex check inside the port loop of `playerHasPort`: the player
owns a building on this port vertex and the port has the wanted type. -/
def portVertexGrants (g : Game) (playerId : Int) (portType : PortType)
    (pt : PortType) (v : VertexCoord) : Bool :=
  match alookup v g.board.vertices with
  | some vx => vx.ownerPlayerId = playerId ∧ vx.building ≠ Building.none ∧ pt = portType
  | _ => false

/-- `playerHasPort`, `game_logic.cpp` lines 113-133. -/
def playerHasPort (g : Game) (playerId : Int) (portType : PortType) : Bool :=
  g.board.ports.any (fun port =>
    portVertexGrants g playerId portType port.type port.vertex1 ||
    portVertexGrants g playerId portType port.type port.vertex2)

/-- `getTradeRatio`, `game_logic.cpp` lines 135-158 (renamed with an `Of`
suffix for this development).  2:1 with a resource-specific port, else 3:1
with a generic port, else 4:1; 4:1 for `Resource::None`. -/
def getTradeRatioOf (g : Game) (playerId : Int) (resource : Resource) : Int :=
  match resource with
  | .none => 4
  | _ =>
    let specificPort : PortType :=
      match resource with
      | .wood => .wood
      | .brick => .brick
      | .wheat => .wheat
      | .sheep => .sheep
      | .ore => .ore
      | .none => .generic
    if playerHasPort g playerId specificPort then 2
    else if playerHasPort g playerId PortType.generic then 3
    else 4

/-! Longest road, `game_logic.cpp` lines 160-263. -/

/-- The inner test "this edge has our road" of `longestRoadDFS`. -/
def roadAt (g : Game) (pid : Int) (e : EdgeCoord) : Bool :=
  match alookup e g.board.edges with
  | some ed => ed.hasRoad ∧ ed.ownerPlayerId = pid
  | _ => false

/-- The blocking test of `longestRoadDFS`: an opponent settlement/city on
the vertex stops the path. -/
def blockedAt (g : Game) (pid : Int) (v : VertexCoord) : Bool :=
  match alookup v g.board.vertices with
  | some vx => vx.building ≠ Building.none ∧ vx.ownerPlayerId ≠ pid
  | _ => false

/-- Continuation edges the DFS may recurse into from edge `e` given the
current visited set: for each unblocked endpoint vertex, the edges at that
vertex carrying the player's road and not yet on the current path.
This mirrors the two nested loops of `longestRoadDFS` (lines 183-210);
the eager filter is faithful because the visited set seen by those loops
is restored by `visited.erase(key)` after each recursive call. -/
def dfsCandidates (g : Game) (pid : Int) (visited : List EdgeCoord)
    (e : EdgeCoord) : List EdgeCoord :=
  let p := getVerticesOfEdge e
  (([p.1, p.2].filter (fun v => !(blockedAt g pid v))).map
    (fun v => (getEdgesAtVertex v).filter
      (fun e2 => roadAt g pid e2 ∧ e2 ∉ visited))).flatten

/-- `longestRoadDFS`, `game_logic.cpp` lines 165-214.  The C++ recursion
always terminates because the visited set grows along every call path and
recursion only enters unvisited road edges; the `fuel` parameter makes
that bound explicit (`calculateLongestRoad` passes one more than the
number of edge-map entries, which exceeds the number of distinct road
keys any path can visit, so the `fuel = 0` case is never reached). -/
def longestRoadDFS (g : Game) (pid : Int) :
    Nat → EdgeCoord → List EdgeCoord → Int → Int
  | 0, _, _, _ => 0
  | fuel + 1, e, visited, depth =>
    if e ∈ visited then depth - 1
    else
      let visited2 := e :: visited
      (dfsCandidates g pid visited2 e).foldl
        (fun m e2 => max m (longestRoadDFS g pid fuel e2 visited2 (depth + 1)))
        depth

/-- `calculateLongestRoad`, `game_logic.cpp` lines 216-229: max of the DFS
over all of the player's road edges as starting points. -/
def calculateLongestRoad (g : Game) (pid : Int) : Int :=
  g.board.edges.foldl (fun acc ce =>
    if ce.2.hasRoad ∧ ce.2.ownerPlayerId = pid then
      max acc (longestRoadDFS g pid (g.board.edges.length + 1) ce.1 [] 1)
    else acc) 0

/-- Loop body of `updateLongestRoad`: the running (length, holder) pair is
replaced when a player's road length is at least 5 and strictly greater. -/
def lrStep (g : Game) (acc : Int × Int) (p : Player) : Int × Int :=
  let rl := calculateLongestRoad g p.id
  if 5 ≤ rl ∧ acc.1 < rl then (rl, p.id) else acc

/-- Flag bookkeeping of `updateLongestRoad` on a holder change: clear the
old holder's `hasLongestRoad` (when its id is non-negative and present),
then set the new holder's. -/
def lrFlags (g : Game) (newPid : Int) : List Player :=
  let ps1 := if 0 ≤ g.longestRoadPlayerId then
      updatePlayer g.longestRoadPlayerId
        (fun p => { p with hasLongestRoad := false }) g.players
    else g.players
  if 0 ≤ newPid then
    updatePlayer newPid (fun p => { p with hasLongestRoad := true }) ps1
  else ps1

/-- `updateLongestRoad`, `game_logic.cpp` lines 231-263. -/
def updateLongestRoad (g : Game) : Game :=
  let res := g.players.foldl (lrStep g) (g.longestRoadLength, g.longestRoadPlayerId)
  if res.2 ≠ g.longestRoadPlayerId then
    { g with players := lrFlags g res.2,
             longestRoadPlayerId := res.2, longestRoadLength := res.1 }
  else g

/-! Victory points and win detection, `game_logic.cpp` lines 301-355. -/

/-- Loop body of the building tally in `calculateVictoryPoints`:
+1 per owned settlement entry, +2 per owned city entry. -/
def vpStep (pid : Int) (vp : Int) (cv : VertexCoord × Vertex) : Int :=
  if cv.2.ownerPlayerId = pid then
    if cv.2.building = Building.settlement then vp + 1
    else if cv.2.building = Building.city then vp + 2
    else vp
  else vp

/-- `calculateVictoryPoints`, `game_logic.cpp` lines 305-340. -/
def calculateVictoryPoints (g : Game) (pid : Int) (includeHidden : Bool) : Int :=
  let base := g.board.vertices.foldl (vpStep pid) 0
  match g.players.find? (fun p => p.id = pid) with
  | some player =>
      let withFlags := base + (if player.hasLongestRoad then 2 else 0)
        + (if player.hasLargestArmy then 2 else 0)
      if includeHidden then
        withFlags + ((player.devCards.filter
          (fun c => c = DevCardType.victoryPoint)).length : Int)
      else withFlags
  | _ => base

/-- Loop of `checkForWinner` over the roster. -/
def checkForWinnerGo (g : Game) : List Player → Int
  | [] => -1
  | p :: rest =>
      if 10 ≤ calculateVictoryPoints g p.id true then p.id
      else checkForWinnerGo g rest

/-- `checkForWinner`, `game_logic.cpp` lines 347-355. -/
def checkForWinner (g : Game) : Int :=
  checkForWinnerGo g g.players

/-! Building validation and setup placement, `game_logic.cpp` lines 357-554. -/

/-- Occupancy test used twice inside `isVertexDistanceValid`. -/
def occupiedAt (g : Game) (v : VertexCoord) : Bool :=
  match alookup v g.board.vertices with
  | some vx => vx.building ≠ Building.none
  | _ => false

/-- `isVertexDistanceValid`, `game_logic.cpp` lines 361-380. -/
def isVertexDistanceValid (g : Game) (vertex : VertexCoord) : Bool :=
  if occupiedAt g vertex then false
  else !((getAdjacentVertices vertex).any (fun adj => occupiedAt g adj))

/-- The adjacent-to-land test inside `getValidSetupSettlementLocations`:
the vertex's own hex exists and is not ocean. -/
def adjacentToLand (g : Game) (v : VertexCoord) : Bool :=
  match alookup v.hex g.board.hexes with
  | some hx => hx.type ≠ HexType.ocean
  | _ => false

/-- `getValidSetupSettlementLocations`, `game_logic.cpp` lines 473-495. -/
def getValidSetupSettlementLocations (g : Game) : List VertexCoord :=
  (g.board.vertices.filter (fun cv =>
    decide (cv.2.building = Building.none) && isVertexDistanceValid g cv.1 &&
      adjacentToLand g cv.1)).map (fun cv => cv.1)

/-- `placeSetupSettlement`, `game_logic.cpp` lines 513-539; `some` models
the `true` return (settlement placed, piece count decremented). -/
def placeSetupSettlement (g : Game) (playerId : Int) (location : VertexCoord) :
    Option Game :=
  match g.getPlayerById playerId with
  | Option.none => Option.none
  | some _ =>
    if (getValidSetupSettlementLocations g).any
        (fun v => v.hex = location.hex ∧ v.direction = location.direction) then
      match alookup location g.board.vertices with
      | some _ =>
          some { g with
            board := { g.board with
              vertices := aupdate location
                (fun vx => { vx with building := Building.settlement,
                                     ownerPlayerId := playerId })
                g.board.vertices },
            players := updatePlayer playerId
              (fun p => { p with settlementsRemaining := p.settlementsRemaining - 1 })
              g.players }
      | _ => Option.none
    else Option.none

/-!
Command handlers from `server.cpp`.  Each handler first performs the
`getGameContext` checks that involve game state (player lookup by the
session's player id, and — where `requireCurrentTurn` — the
current-turn check `currentPlayerIndex == playerId`); session-token
validation itself is transport-layer and involves no game state.  The
`isAI` gate of `/ai/execute` is a read-only check on a player-type field
that exists only in a newer `catan_types.h` than the one in this tree;
it cannot affect any state transition and is omitted.  Dice values and
the steal choice are explicit parameters.
-/

/-- Resource payout for one vertex of a producing hex: the body of the
inner `for (int dir ...)` loop of `handleRollDice` (`server.cpp` lines
469-483).  Note the C++ pays any vertex entry with `ownerPlayerId >= 0`,
with 2 for a city and 1 otherwise. -/
def payVertex (resource : Resource) (coord : HexCoord) (dir : Fin 6)
    (g : Game) : Game :=
  match alookup (⟨coord, dir⟩ : VertexCoord) g.board.vertices with
  | some vx =>
      if 0 ≤ vx.ownerPlayerId then
        let amount : Int := if vx.building = Building.city then 2 else 1
        { g with players := (updatePlayer vx.ownerPlayerId
            (fun p => { p with resources := p.resources.add resource amount })
            g.players) }
      else g
  | _ => g

/-- Resource payout for one hex: the body of the hex loop of
`handleRollDice` (`server.cpp` lines 463-485). -/
def payHex (total : Int) (g : Game) (ch : HexCoord × Hex) : Game :=
  if ch.2.numberToken = total ∧ ch.2.hasRobber = false then
    let resource := hexTypeToResource ch.2.type
    if resource = Resource.none then g
    else (List.finRange 6).foldl (fun g2 dir => payVertex resource ch.1 dir g2) g
  else g

/-- `handleRollDice` (`server.cpp` lines 426-495), the REST `/roll`
endpoint: records the roll, moves to `Robber` on a 7, otherwise
distributes production and moves to `MainTurn`. -/
def rollDice (g : Game) (pid die1 die2 : Int) : Except String Game :=
  match g.getPlayerById pid with
  | Option.none => .error "Player not found"
  | some _ =>
    if g.currentPlayerIndex ≠ pid then .error "Not your turn"
    else if g.phase ≠ GamePhase.rolling then
      .error "Cannot roll now, phase is not Rolling"
    else
      let g1 := { g with lastRoll := some ⟨die1, die2⟩ }
      if die1 + die2 = 7 then .ok { g1 with phase := GamePhase.robber }
      else
        let g2 := g1.board.hexes.foldl (payHex (die1 + die2)) g1
        .ok { g2 with phase := GamePhase.mainTurn }

/-- The `roll_dice` branch of `handleExecuteAITool` (`server.cpp` lines
822-855): same phase logic, but the resource-distribution step is absent
(the source holds only the comment "Resource distribution logic...").
-/
def rollDiceTool (g : Game) (pid die1 die2 : Int) : Except String Game :=
  match g.getPlayerById pid with
  | Option.none => .error "Player not found"
  | some _ =>
    if g.currentPlayerIndex ≠ pid then .error "Not your turn"
    else if g.phase ≠ GamePhase.rolling then .error "Cannot roll now"
    else
      let g1 := { g with lastRoll := some ⟨die1, die2⟩ }
      if die1 + die2 = 7 then .ok { g1 with phase := GamePhase.robber }
      else .ok { g1 with phase := GamePhase.mainTurn }

/-- The `build_road` branch of `handleExecuteAITool` (`server.cpp` lines
875-909): after the phase/cost/pieces checks it deducts the road cost and
piece unconditionally, then sets the road only if the edge key exists
(placement rules are a `TODO` in the source). -/
def buildRoadTool (g : Game) (pid hexQ hexR : Int) (direction : Fin 6) :
    Except String Game :=
  match g.getPlayerById pid with
  | Option.none => .error "Player not found"
  | some player =>
    if g.currentPlayerIndex ≠ pid then .error "Not your turn"
    else if g.phase ≠ GamePhase.mainTurn then .error "Cannot build during this phase"
    else if canAfford player.resources roadCost = false then .error "Not enough resources"
    else if player.roadsRemaining ≤ 0 then .error "No roads remaining"
    else
      let g1 := { g with players := updatePlayer pid (fun p =>
        { p with resources := subtractResources p.resources roadCost,
                 roadsRemaining := p.roadsRemaining - 1 }) g.players }
      let coord : EdgeCoord := ⟨⟨hexQ, hexR⟩, direction⟩
      .ok { g1 with board := { g1.board with
        edges := aupdate coord
          (fun ed => { ed with hasRoad := true, ownerPlayerId := pid })
          g1.board.edges } }

/-- The `build_settlement` branch of `handleExecuteAITool` (`server.cpp`
lines 911-943): deducts cost and piece after the phase/cost/pieces
checks, then writes the settlement if the vertex key exists; no distance
or connectivity validation (a `TODO` in the source). -/
def buildSettlementTool (g : Game) (pid hexQ hexR : Int) (direction : Fin 6) :
    Except String Game :=
  match g.getPlayerById pid with
  | Option.none => .error "Player not found"
  | some player =>
    if g.currentPlayerIndex ≠ pid then .error "Not your turn"
    else if g.phase ≠ GamePhase.mainTurn then .error "Cannot build during this phase"
    else if canAfford player.resources settlementCost = false then .error "Not enough resources"
    else if player.settlementsRemaining ≤ 0 then .error "No settlements remaining"
    else
      let g1 := { g with players := updatePlayer pid (fun p =>
        { p with resources := subtractResources p.resources settlementCost,
                 settlementsRemaining := p.settlementsRemaining - 1 }) g.players }
      let coord : VertexCoord := ⟨⟨hexQ, hexR⟩, direction⟩
      .ok { g1 with board := { g1.board with
        vertices := aupdate coord
          (fun vx => { vx with building := Building.settlement, ownerPlayerId := pid })
          g1.board.vertices } }

/-- The `build_city` branch of `handleExecuteAITool` (`server.cpp` lines
945-979): here the vertex is verified (own settlement present) before any
mutation. -/
def buildCityTool (g : Game) (pid hexQ hexR : Int) (direction : Fin 6) :
    Except String Game :=
  match g.getPlayerById pid with
  | Option.none => .error "Player not found"
  | some player =>
    if g.currentPlayerIndex ≠ pid then .error "Not your turn"
    else if g.phase ≠ GamePhase.mainTurn then .error "Cannot build during this phase"
    else if canAfford player.resources cityCost = false then .error "Not enough resources"
    else if player.citiesRemaining ≤ 0 then .error "No cities remaining"
    else
      let coord : VertexCoord := ⟨⟨hexQ, hexR⟩, direction⟩
      match alookup coord g.board.vertices with
      | some vx =>
        if vx.building ≠ Building.settlement ∨ vx.ownerPlayerId ≠ pid then
          .error "No settlement to upgrade at this location"
        else
          let g1 := { g with players := updatePlayer pid (fun p =>
            { p with resources := subtractResources p.resources cityCost,
                     citiesRemaining := p.citiesRemaining - 1,
                     settlementsRemaining := p.settlementsRemaining + 1 }) g.players }
          .ok { g1 with board := { g1.board with
            vertices := aupdate coord (fun v => { v with building := Building.city })
              g1.board.vertices } }
      | _ => .error "No settlement to upgrade at this location"

/-- The `buy_dev_card` branch of `handleExecuteAITool` (`server.cpp` lines
981-1009; identical economy to the REST `handleBuyDevCard`): pays the
cost, pops the back of the deck into the player's hand. -/
def buyDevCardTool (g : Game) (pid : Int) : Except String Game :=
  match g.getPlayerById pid with
  | Option.none => .error "Player not found"
  | some player =>
    if g.currentPlayerIndex ≠ pid then .error "Not your turn"
    else if g.phase ≠ GamePhase.mainTurn then .error "Cannot buy during this phase"
    else if canAfford player.resources devCardCost = false then .error "Not enough resources"
    else match g.devCardDeck.getLast? with
      | Option.none => .error "No dev cards remaining"
      | some card =>
        .ok { g with
          devCardDeck := g.devCardDeck.dropLast,
          players := updatePlayer pid (fun p =>
            { p with resources := subtractResources p.resources devCardCost,
                     devCards := p.devCards ++ [card] }) g.players }

/-- `handleBankTrade` (`server.cpp` lines 623-664), the REST `/trade/bank`
endpoint: the applied ratio is the literal `int ratio = 4;` with the port
check left as a `TODO` — `getTradeRatio` from `game_logic.cpp` is never
consulted. -/
def bankTrade (g : Game) (pid : Int) (give receive : Resource) :
    Except String Game :=
  match g.getPlayerById pid with
  | Option.none => .error "Player not found"
  | some player =>
    if g.currentPlayerIndex ≠ pid then .error "Not your turn"
    else if g.phase ≠ GamePhase.mainTurn then .error "Cannot trade during this phase"
    else if give = Resource.none ∨ receive = Resource.none then
      .error "Invalid resources. Use: wood, brick, wheat, sheep, ore"
    else if give = receive then .error "Cannot trade same resource"
    else
      let ratio : Int := 4
      if player.resources.get give < ratio then .error "Not enough resources for bank trade"
      else
        .ok { g with players := (updatePlayer pid (fun p =>
          { p with resources := (p.resources.add give (-ratio)).add receive 1 })
          g.players) }

/-- Positional list update, for `players[stealFrom]` in the robber steal. -/
def updateIdx {α : Type} : Nat → (α → α) → List α → List α
  | _, _, [] => []
  | 0, f, a :: rest => f a :: rest
  | n + 1, f, a :: rest => a :: updateIdx n f rest

/-- The resources the robber can steal, in the fixed order the C++ builds
`available` (wood, brick, wheat, sheep, ore). -/
def availableResources (h : ResourceHand) : List Resource :=
  (if 0 < h.wood then [Resource.wood] else []) ++
  (if 0 < h.brick then [Resource.brick] else []) ++
  (if 0 < h.wheat then [Resource.wheat] else []) ++
  (if 0 < h.sheep then [Resource.sheep] else []) ++
  (if 0 < h.ore then [Resource.ore] else [])

/-- The optional steal of the `move_robber` branch (`server.cpp` lines
1065-1088): if `stealFrom` is a valid roster index and that player holds
any resource, move one (chosen by `pick` among the victim's available
resource kinds) from the victim to the acting player.  Only the player
list is touched. -/
def stealStep (g1 : Game) (pid stealFrom : Int) (pick : Nat) : Game :=
  if 0 ≤ stealFrom ∧ stealFrom < (g1.players.length : Int) then
    match g1.players[stealFrom.toNat]? with
    | some victim =>
      if 0 < victim.resources.total then
        match (availableResources victim.resources)[pick %
            (availableResources victim.resources).length]? with
        | some stolen =>
          { g1 with players := (updatePlayer pid
              (fun p => { p with resources := p.resources.add stolen 1 })
              (updateIdx stealFrom.toNat
                (fun p => { p with resources := p.resources.add stolen (-1) })
                g1.players)) }
        | _ => g1
      else g1
    | _ => g1
  else g1

/-- The `move_robber` branch of `handleExecuteAITool` (`server.cpp` lines
1041-1097): clears the robber flag on the old hex entry (if present),
sets it on the target entry (if present), records the target as the
robber location, runs the optional steal, and moves to `MainTurn`.
The target hex is never validated. -/
def moveRobberTool (g : Game) (pid hexQ hexR stealFrom : Int) (pick : Nat) :
    Except String Game :=
  match g.getPlayerById pid with
  | Option.none => .error "Player not found"
  | some _ =>
    if g.currentPlayerIndex ≠ pid then .error "Not your turn"
    else if g.phase ≠ GamePhase.robber then .error "Not in robber phase"
    else
      let newLoc : HexCoord := ⟨hexQ, hexR⟩
      let hexes1 := aupdate g.board.robberLocation
        (fun hx => { hx with hasRobber := false }) g.board.hexes
      let hexes2 := aupdate newLoc (fun hx => { hx with hasRobber := true }) hexes1
      let g1 := { g with board := { g.board with hexes := hexes2, robberLocation := newLoc } }
      .ok { stealStep g1 pid stealFrom pick with phase := GamePhase.mainTurn }

/-- The `end_turn` branch of `handleExecuteAITool` (`server.cpp` lines
857-873; the REST `handleEndTurn` performs the same state transition):
advance the seat with wraparound, reset the per-turn dev-card flag,
return to `Rolling`. -/
def endTurn (g : Game) (pid : Int) : Except String Game :=
  match g.getPlayerById pid with
  | Option.none => .error "Player not found"
  | some _ =>
    if g.currentPlayerIndex ≠ pid then .error "Not your turn"
    else if g.phase ≠ GamePhase.mainTurn then .error "Cannot end turn during this phase"
    else
      .ok { g with
        currentPlayerIndex := (g.currentPlayerIndex + 1) % (g.players.length : Int),
        phase := GamePhase.rolling,
        devCardPlayedThisTurn := false }

/-- `handleStartGame` (`server.cpp` lines 718-765): from the lobby phase
with at least two joined players, jump straight to `Rolling` with seat 0
(the setup phases are skipped — a `TODO` in the source) and give every
player 2 of each of the five resources. -/
def startGame (g : Game) (pid : Int) : Except String Game :=
  match g.getPlayerById pid with
  | Option.none => .error "Player not found"
  | some _ =>
    if g.phase ≠ GamePhase.waitingForPlayers then .error "Game already started"
    else if g.players.length < 2 then .error "Need at least 2 players to start"
    else
      .ok { g with
        phase := GamePhase.rolling,
        currentPlayerIndex := 0,
        players := g.players.map (fun p => { p with resources := ⟨2, 2, 2, 2, 2⟩ }) }

/-! Board generation, `catan_game.cpp` lines 98-201. -/

/-- `LAND_HEX_COORDS`: centre, ring 1, ring 2. -/
def landHexCoords : List HexCoord :=
  [⟨0, 0⟩,
   ⟨1, -1⟩, ⟨1, 0⟩, ⟨0, 1⟩, ⟨-1, 1⟩, ⟨-1, 0⟩, ⟨0, -1⟩,
   ⟨2, -2⟩, ⟨2, -1⟩, ⟨2, 0⟩, ⟨1, 1⟩, ⟨0, 2⟩, ⟨-1, 2⟩,
   ⟨-2, 2⟩, ⟨-2, 1⟩, ⟨-2, 0⟩, ⟨-1, -1⟩, ⟨0, -2⟩, ⟨1, -2⟩]

/-- `STANDARD_RESOURCES`: 1 desert, 4 wood, 3 brick, 4 wheat, 4 sheep, 3 ore. -/
def stdResources : List HexType :=
  [.desert,
   .forest, .forest, .forest, .forest,
   .hills, .hills, .hills,
   .fields, .fields, .fields, .fields,
   .pasture, .pasture, .pasture, .pasture,
   .mountains, .mountains, .mountains]

/-- `STANDARD_NUMBERS` (7 absent; the desert gets no token). -/
def stdNumbers : List Int :=
  [2, 3, 3, 4, 4, 5, 5, 6, 6, 8, 8, 9, 9, 10, 10, 11, 11, 12]

/-- The hex-placement loop of `generateRandomBoard` (`catan_game.cpp`
lines 144-159) over already-paired (coordinate, terrain) entries, threading
the number-token list (consumed only by non-desert hexes) and returning
the coordinate the robber was last seated on (each desert overwrites
`robberLocation`, so the last one wins; the standard deck has exactly
one). -/
def genHexes : List (HexCoord × HexType) → List Int →
    List (HexCoord × Hex) × List Int × Option HexCoord
  | [], nums => ([], nums, Option.none)
  | (c, t) :: rest, nums =>
    if t = HexType.desert then
      let res := genHexes rest nums
      ((c, ⟨c, t, 0, true⟩) :: res.1, res.2.1, some (res.2.2.getD c))
    else
      let res := genHexes rest nums.tail
      ((c, ⟨c, t, nums.headD 0, false⟩) :: res.1, res.2.1, res.2.2)

/-- `generateRandomBoard` (`catan_game.cpp` lines 129-201) with the two
shuffles modelled as the input lists `resources` and `numbers` (the C++
shuffles copies of `STANDARD_RESOURCES`/`STANDARD_NUMBERS`; the claims
quantify over the shuffle outcome).  Faithful details:

* each land hex contributes six vertex entries and six edge entries under
  its own raw `(hex, direction)` keys — the `find`-before-insert dedup in
  the C++ never fires because those raw keys are pairwise distinct, so a
  geometric vertex or edge shared between hexes is stored once per hex;
* the port list stays empty: lines 189-199 shuffle nine port types but
  never write a `Port` into `board.ports`;
* `robberLocation` is default-modelled as `(0,0)` when no desert occurs
  (the C++ leaves the field uninitialized in that case; every claim using
  it supposes a desert exists, which overwrites the field). -/
def generateBoard (resources : List HexType) (numbers : List Int) : GameBoard :=
  let res := genHexes (landHexCoords.zip resources) numbers
  { hexes := res.1,
    vertices := landHexCoords.flatMap (fun c => (List.finRange 6).map
      (fun d => ((⟨c, d⟩ : VertexCoord), (⟨⟨c, d⟩, Building.none, -1⟩ : Vertex)))),
    edges := landHexCoords.flatMap (fun c => (List.finRange 6).map
      (fun d => ((⟨c, d⟩ : EdgeCoord), (⟨⟨c, d⟩, false, -1⟩ : Edge)))),
    ports := [],
    robberLocation := res.2.2.getD ⟨0, 0⟩ }

/-- The board produced when both shuffles happen to return the standard
lists unpermuted: one concrete, fully legal outcome of
`generateRandomBoard`, used as the concrete board of the closed
theorems below.  Desert (and robber) at `(0,0)`; hex `(1,-1)` is forest
with number token 2. -/
def stdBoard : GameBoard := generateBoard stdResources stdNumbers

/-!
Specification-side definitions and concrete test states.  The concrete
games below are inputs to the theorems, not translations of source code;
each one is a state the server can reach (or, where noted, a directly
constructed `Game` value).
-/

/-- The victory-point total exactly as the specification words it:
1 per settlement, 2 per city, 2 for longest road, 2 for largest army,
1 per held victory-point development card (the player is looked up by
id in roster order, as everywhere in the engine). -/
def victoryPointsSpec (g : Game) (pid : Int) : Int :=
  ((g.board.vertices.filter (fun cv =>
      cv.2.ownerPlayerId = pid ∧ cv.2.building = Building.settlement)).length : Int)
  + 2 * ((g.board.vertices.filter (fun cv =>
      cv.2.ownerPlayerId = pid ∧ cv.2.building = Building.city)).length : Int)
  + (match g.players.find? (fun p => p.id = pid) with
     | some player =>
        (if player.hasLongestRoad then 2 else 0) +
        (if player.hasLargestArmy then 2 else 0) +
        ((player.devCards.filter (fun c => c = DevCardType.victoryPoint)).length : Int)
     | _ => 0)

/-- Number of hex entries carrying the robber flag. -/
def robberCount (b : GameBoard) : Nat :=
  (b.hexes.filter (fun ch => ch.2.hasRobber)).length

/-- A fresh player as `handleStartGame` leaves it: 2 of each resource,
full piece stock. -/
def mkPlayer (i : Int) : Player := ⟨i, ⟨2, 2, 2, 2, 2⟩, [], 5, 4, 15, 0, false, false⟩

/-- A two-player main-turn game on the standard board, exactly the state
after create → 2 joins → start → player 0 rolls (a non-producing roll). -/
def gMain : Game :=
  { board := stdBoard, players := [mkPlayer 0, mkPlayer 1], devCardDeck := [],
    phase := .mainTurn, currentPlayerIndex := 0 }

/-- `stdBoard` with player 0 owning a settlement on vertex entry
`((1,-1), 0)` — hex `(1,-1)` is forest with number token 2. -/
def rollBoard : GameBoard :=
  { stdBoard with
    vertices := aupdate (⟨⟨1, -1⟩, 0⟩ : VertexCoord)
      (fun vx => { vx with building := Building.settlement, ownerPlayerId := 0 })
      stdBoard.vertices }

/-- A two-player game awaiting player 0's dice roll, with player 0 owning
a settlement adjacent to the token-2 forest hex. -/
def gRoll : Game :=
  { board := rollBoard, players := [mkPlayer 0, mkPlayer 1], devCardDeck := [],
    phase := .rolling, currentPlayerIndex := 0 }

/-- A two-player game in the robber phase on the standard board (robber
seated on the desert at `(0,0)`). -/
def gRob : Game :=
  { board := stdBoard, players := [mkPlayer 0, mkPlayer 1], devCardDeck := [],
    phase := .robber, currentPlayerIndex := 0 }

/-- `stdBoard` extended with one generic 3:1 port on vertices
`((0,0),0)`-`((0,0),1)` and a settlement of player 0 on the first port
vertex.  (Reachable only in the sense that the port list is data of
`GameBoard`; `generateRandomBoard` as written never fills it — which is
what claim C5 is about.) -/
def portBoard : GameBoard :=
  { stdBoard with
    ports := [⟨⟨⟨0, 0⟩, 0⟩, ⟨⟨0, 0⟩, 1⟩, PortType.generic⟩],
    vertices := aupdate (⟨⟨0, 0⟩, 0⟩ : VertexCoord)
      (fun vx => { vx with building := Building.settlement, ownerPlayerId := 0 })
      stdBoard.vertices }

/-- Main-turn game on `portBoard` where the port-owning player 0 holds
4 wood. -/
def gPort : Game :=
  { board := portBoard,
    players := [⟨0, ⟨4, 2, 2, 2, 2⟩, [], 5, 4, 15, 0, false, false⟩, mkPlayer 1],
    devCardDeck := [], phase := .mainTurn, currentPlayerIndex := 0 }

/-- A two-player lobby (pre-start) game with empty hands. -/
def gLobby : Game :=
  { board := stdBoard,
    players := [⟨0, ⟨0, 0, 0, 0, 0⟩, [], 5, 4, 15, 0, false, false⟩,
                ⟨1, ⟨0, 0, 0, 0, 0⟩, [], 5, 4, 15, 0, false, false⟩],
    devCardDeck := [], phase := .waitingForPlayers, currentPlayerIndex := 0 }

/-!
The straight-chain road family for the longest-road claims.  The chain
runs south through hexes `(0, m)`: edge `2m` of the chain is board edge
`((0,m), 1)` and edge `2m+1` is `((0,m), 2)`.  Geometrically consecutive
chain edges share a vertex, so the chain is a simple path of `N` road
segments with no branching.  The junction between chain edges `t-1` and
`t` is the vertex entry `blockerKey t` — the representation of that
geometric vertex which the chain's own edges reference.
-/

/-- Hex `(0, m)` hosting chain edges `2m` and `2m + 1`. -/
def chainHex (m : Nat) : HexCoord := ⟨0, (m : Int)⟩

/-- The `i`-th chain edge coordinate. -/
def chainEdge (i : Nat) : EdgeCoord :=
  ⟨chainHex (i / 2), if i % 2 = 0 then 1 else 2⟩

/-- Edge-map entries placing a road of player 0 on chain edges `0..N-1`. -/
def chainEdgesList (N : Nat) : List (EdgeCoord × Edge) :=
  (List.range N).map (fun i => (chainEdge i, ⟨chainEdge i, true, 0⟩))

/-- The vertex entry at the junction between chain edges `t-1` and `t`
(for `1 ≤ t`): the shared on-hex corner for odd `t`, the south corner of
the previous hex for even `t`. -/
def blockerKey (t : Nat) : VertexCoord :=
  if t % 2 = 1 then ⟨chainHex (t / 2), 2⟩ else ⟨chainHex (t / 2 - 1), 3⟩

/-- Optional opponent settlement (player 1) on a junction entry. -/
def blockerEntries : Option Nat → List (VertexCoord × Vertex)
  | some t => [(blockerKey t, ⟨blockerKey t, Building.settlement, 1⟩)]
  | _ => []

/-- Board carrying exactly the chain roads and the optional blocker. -/
def chainBoard (N : Nat) (o : Option Nat) : GameBoard :=
  ⟨[], blockerEntries o, chainEdgesList N, [], ⟨0, 0⟩⟩

/-- Game whose road network is the `N`-chain of player 0, optionally
interrupted by an opponent settlement on junction `t` (`o = some t`). -/
def chainGame (N : Nat) (o : Option Nat) : Game :=
  { board := chainBoard N o, players := [], devCardDeck := [] }

/-- The 5-chain with an opponent settlement stored at `((1,0), 0)` — an
alternate (hex, direction) representation of the geometric junction
between chain edges 0 and 1 (whose chain-referenced entry is
`blockerKey 1 = ((0,0), 2)`). -/
def altBlockBoard : GameBoard :=
  ⟨[], [(⟨⟨1, 0⟩, 0⟩, ⟨⟨⟨1, 0⟩, 0⟩, Building.settlement, 1⟩)],
   chainEdgesList 5, [], ⟨0, 0⟩⟩

/-- Game for the alternate-representation blocker counterexample. -/
def altBlockGame : Game :=
  { board := altBlockBoard, players := [], devCardDeck := [] }

/-- The junction index at which a forward walk along the chain from edge `i`
first stops: the blocker junction if it lies ahead, the chain end otherwise. -/
def stopAt (N : Nat) (o : Option Nat) (i : Nat) : Nat :=
  match o with
  | some b => if i < b then b else N
  | _ => N

/-! ## Theorems -/

set_option maxRecDepth 40000

/-- First alternate representation: corner `d` of hex `h` is corner `d+4`
of the neighbour in direction `d`. -/
theorem vertexPos_alt1 (h : HexCoord) (d : Fin 6) :
    vertexPos ⟨hexPlus h d, d + 4⟩ = vertexPos ⟨h, d⟩ := by
  obtain ⟨q, r⟩ := h
  fin_cases d <;>
    simp [vertexPos, hexPlus, hexDir, hexCenter, cornerOff, Prod.ext_iff] <;> omega

/-- Second alternate representation: corner `d` of hex `h` is corner `d+2`
of the neighbour in direction `d-1`. -/
theorem vertexPos_alt2 (h : HexCoord) (d : Fin 6) :
    vertexPos ⟨hexPlus h (d + 5), d + 2⟩ = vertexPos ⟨h, d⟩ := by
  obtain ⟨q, r⟩ := h
  fin_cases d <;>
    simp [vertexPos, hexPlus, hexDir, hexCenter, cornerOff, Prod.ext_iff] <;> omega

/-- Consistency of `vertexPos` with the source's `getHexesAdjacentToVertex`:
every hex the source lists as touching a vertex really has a corner at
that vertex's position. -/
theorem hexesAdjacent_consistent (v : VertexCoord) :
    ∀ h ∈ getHexesAdjacentToVertex v, ∃ d : Fin 6, vertexPos ⟨h, d⟩ = vertexPos v := by
  intro h hh
  simp only [getHexesAdjacentToVertex, List.mem_cons, List.mem_singleton,
    List.not_mem_nil, or_false] at hh
  rcases hh with h1 | h2 | h3
  · exact ⟨v.direction, by rw [h1]⟩
  · exact ⟨v.direction + 4, by rw [h2]; exact vertexPos_alt1 v.hex v.direction⟩
  · exact ⟨v.direction + 2, by rw [h3]; exact vertexPos_alt2 v.hex v.direction⟩

/-- Consistency of `vertexPos` with the source's `getEdgesAtVertex`:
every edge the source lists at a vertex has that vertex's position as
one of its two endpoint positions. -/
theorem edgesAtVertex_consistent (v : VertexCoord) :
    ∀ e ∈ getEdgesAtVertex v,
      vertexPos (getVerticesOfEdge e).1 = vertexPos v ∨
      vertexPos (getVerticesOfEdge e).2 = vertexPos v := by
  intro e he
  simp only [getEdgesAtVertex, List.mem_cons, List.mem_singleton,
    List.not_mem_nil, or_false] at he
  have hd : ∀ d : Fin 6, d + 5 + 1 = d := by decide
  rcases he with h1 | h2 | h3
  · left; rw [h1]; rfl
  · right; rw [h2]
    show vertexPos ⟨v.hex, v.direction + 5 + 1⟩ = vertexPos v
    rw [hd]
  · left; rw [h3]
    show vertexPos ⟨hexPlus v.hex v.direction, v.direction + 4⟩ = vertexPos v
    exact vertexPos_alt1 v.hex v.direction

/-- Consistency of `vertexPos` with the source's `edgesEqual`: two edge
coordinates the source deems equal have the same (unordered) endpoint
position pair. -/
theorem edgesEqual_consistent (e1 e2 : EdgeCoord) (h : edgesEqual e1 e2 = true) :
    edgePosSum e1 = edgePosSum e2 := by
  unfold edgesEqual at h
  split_ifs at h with h1 h2
  · obtain ⟨ha, hb⟩ := h1
    obtain ⟨h1, d1⟩ := e1
    obtain ⟨h2, d2⟩ := e2
    simp only at ha hb
    subst ha hb
    rfl
  · obtain ⟨ha, hb⟩ := h2
    obtain ⟨hx1, d1⟩ := e1
    obtain ⟨hx2, d2⟩ := e2
    simp only at ha hb
    subst ha hb
    obtain ⟨q, r⟩ := hx1
    fin_cases d1 <;>
      simp [edgePosSum, getVerticesOfEdge, vertexPos, hexPlus, hexDir,
        hexCenter, cornerOff, Prod.ext_iff] <;> omega


/-- C1: the claim — every two (hex, direction) representations of one
geometric vertex compare equal under `verticesEqual` and give identical
board-map lookups — fails on the code.  `((0,0),0)` and `((0,-1),4)` are
the same lattice point (the code's own `getHexesAdjacentToVertex`,
`getEdgesAtVertex` and `edgesEqual` force the `vertexPos` geometry, see
the consistency theorems above), yet `verticesEqual` rejects the pair in
both orders while accepting `((0,-1),3)`, a different point; and a
settlement placed under one representation is invisible to a lookup
under the other.  For edges `edgesEqual` itself is right, but the raw
keyed edge map still gives representation-dependent road lookups. -/
theorem c1_verticesEqual_wrong_on_shared_vertex :
    vertexPos ⟨⟨0, 0⟩, 0⟩ = vertexPos ⟨⟨0, -1⟩, 4⟩ ∧
    verticesEqual ⟨⟨0, 0⟩, 0⟩ ⟨⟨0, -1⟩, 4⟩ = false ∧
    verticesEqual ⟨⟨0, -1⟩, 4⟩ ⟨⟨0, 0⟩, 0⟩ = false ∧
    verticesEqual ⟨⟨0, 0⟩, 0⟩ ⟨⟨0, -1⟩, 3⟩ = true ∧
    vertexPos ⟨⟨0, 0⟩, 0⟩ ≠ vertexPos ⟨⟨0, -1⟩, 3⟩ ∧
    edgesEqual ⟨⟨0, 0⟩, 0⟩ ⟨⟨0, -1⟩, 3⟩ = true ∧
    (buildSettlementTool gMain 0 0 0 0).map (fun g1 =>
        ((alookup (⟨⟨0, 0⟩, 0⟩ : VertexCoord) g1.board.vertices).map (fun v => v.building),
         (alookup (⟨⟨0, -1⟩, 4⟩ : VertexCoord) g1.board.vertices).map (fun v => v.building)))
      = .ok (some Building.settlement, some Building.none) ∧
    (buildRoadTool gMain 0 0 0 0).map (fun g1 =>
        ((alookup (⟨⟨0, 0⟩, 0⟩ : EdgeCoord) g1.board.edges).map (fun e => e.hasRoad),
         (alookup (⟨⟨0, -1⟩, 3⟩ : EdgeCoord) g1.board.edges).map (fun e => e.hasRoad)))
      = .ok (some true, some false) := by
  refine ⟨by decide, by decide, by decide, by decide, by decide, by decide, by rfl, by rfl⟩

/-- C2: the claim — a mutating command with an invalid target returns a
structured failure and leaves the state untouched — fails on the code.
The AI `build_road` command at off-board edge `((9,9),0)` (in the main
turn, with ample resources) deducts 1 wood + 1 brick and one road piece,
places nothing (the board is exactly the one before the call), and
reports success. -/
theorem c2_build_road_invalid_target_partial_mutation :
    alookup (⟨⟨9, 9⟩, 0⟩ : EdgeCoord) gMain.board.edges = Option.none ∧
    (buildRoadTool gMain 0 9 9 0).map
        (fun g => (g.players.map (fun p => (p.resources, p.roadsRemaining)), g.board))
      = .ok ([(⟨1, 1, 2, 2, 2⟩, 14), (⟨2, 2, 2, 2, 2⟩, 15)], gMain.board) := by
  exact ⟨by rfl, by rfl⟩

/-- C4: the claim — every roll command with total in 2..6, 8..12 pays each
owner adjacent to a matching non-robber hex — fails on the code's AI
roll path.  With player 0's settlement on a vertex of the token-2 forest
hex `(1,-1)`, a roll of 1+1 through the REST handler pays 1 wood and
moves to MainTurn, but the same roll through the `roll_dice` AI tool
changes no resources at all (its distribution step is an unimplemented
comment) while still moving to MainTurn. -/
theorem c4_ai_roll_skips_distribution :
    alookup (⟨1, -1⟩ : HexCoord) gRoll.board.hexes
      = some ⟨⟨1, -1⟩, HexType.forest, 2, false⟩ ∧
    (alookup (⟨⟨1, -1⟩, 0⟩ : VertexCoord) gRoll.board.vertices).map
        (fun v => (v.building, v.ownerPlayerId)) = some (Building.settlement, 0) ∧
    (rollDiceTool gRoll 0 1 1).map (fun g => (g.players.map (fun p => p.resources), g.phase))
      = .ok ([⟨2, 2, 2, 2, 2⟩, ⟨2, 2, 2, 2, 2⟩], GamePhase.mainTurn) ∧
    (rollDice gRoll 0 1 1).map (fun g => (g.players.map (fun p => p.resources), g.phase))
      = .ok ([⟨3, 2, 2, 2, 2⟩, ⟨2, 2, 2, 2, 2⟩], GamePhase.mainTurn) := by
  exact ⟨by rfl, by rfl, by rfl, by rfl⟩

/-- C6: the claim — after a settlement is placed, placing on that vertex
or an adjacent vertex always fails with a placement rejection, through
every placement path — fails on the code.  After player 0 builds a
settlement at `((0,0),0)`, building again at `((0,-1),4)` — the very
same geometric vertex (first conjunct) — succeeds through the main-turn
AI build path (which validates nothing about location), and the
setup-phase path `placeSetupSettlement`, which does run
`isVertexDistanceValid`, accepts it as well, because the distance check
compares raw map keys only. -/
theorem c6_settlement_distance_rule_unenforced :
    vertexPos ⟨⟨0, -1⟩, 4⟩ = vertexPos ⟨⟨0, 0⟩, 0⟩ ∧
    ((buildSettlementTool gMain 0 0 0 0).bind (fun g1 => buildSettlementTool g1 0 0 (-1) 4)).map
        (fun g2 => ((alookup (⟨⟨0, 0⟩, 0⟩ : VertexCoord) g2.board.vertices).map (fun v => v.building),
                    (alookup (⟨⟨0, -1⟩, 4⟩ : VertexCoord) g2.board.vertices).map (fun v => v.building)))
      = .ok (some Building.settlement, some Building.settlement) ∧
    ((placeSetupSettlement gMain 0 ⟨⟨0, 0⟩, 0⟩).bind
        (fun g1 => placeSetupSettlement g1 0 ⟨⟨0, -1⟩, 4⟩)).isSome = true := by
  exact ⟨by decide, by rfl, by rfl⟩

/-- C9 (counterexample): the claim that every move-robber command leaves
exactly one hex holding the robber is false for an off-board target.
From the standard board (robber on the desert, one flagged hex), moving
the robber to `(9,9)` — a hex that is not on the board — succeeds and
leaves zero hex entries flagged, with `robberLocation` pointing at the
nonexistent hex. -/
theorem c9_move_robber_offboard_counterexample :
    robberCount gRob.board = 1 ∧
    alookup (⟨9, 9⟩ : HexCoord) gRob.board.hexes = Option.none ∧
    (moveRobberTool gRob 0 9 9 (-1) 0).map
        (fun g => (robberCount g.board, g.board.robberLocation))
      = .ok (0, ⟨9, 9⟩) := by
  exact ⟨by rfl, by rfl, by rfl⟩

/-- C5 (counterexample): the claim that the ratio applied to a bank trade
is 3:1 for a player with a building adjacent to a generic port is false.
In `gPort`, player 0 owns a settlement on a generic-port vertex (and no
wood port), so the ratio helper computes 3 — yet the bank-trade command
deducts 4 wood for 1 ore: the handler hard-codes ratio 4 and never
consults the port logic. -/
theorem c5_port_ignored_counterexample :
    playerHasPort gPort 0 PortType.generic = true ∧
    playerHasPort gPort 0 PortType.wood = false ∧
    getTradeRatioOf gPort 0 Resource.wood = 3 ∧
    (bankTrade gPort 0 Resource.wood Resource.ore).map
        (fun g => g.players.map (fun p => (p.resources.wood, p.resources.ore)))
      = .ok [(0, 3), (2, 2)] := by
  exact ⟨by rfl, by rfl, by rfl, by rfl⟩

/-- C3 (counterexample): the claim that an opponent settlement on an
interior vertex of a straight chain always splits the longest-road count
into the longer segment length is false when the settlement is stored
under an alternate (hex, direction) representation of that vertex.  On
the 5-chain, the junction between chain edges 0 and 1 is the geometric
point shared by entries `blockerKey 1 = ((0,0),2)` and `((1,0),0)`
(first conjunct).  An opponent settlement on the first entry splits the
chain as the claim says (max 1 4 = 4), but the same settlement on the
second entry — the same geometric interior vertex — leaves the full
count 5. -/
theorem c3_alternate_representation_blocker :
    vertexPos ⟨⟨1, 0⟩, 0⟩ = vertexPos (blockerKey 1) ∧
    calculateLongestRoad (chainGame 5 (some 1)) 0 = 4 ∧
    calculateLongestRoad altBlockGame 0 = 5 := by
  exact ⟨by decide, by decide, by decide⟩


/-- C10: starting a game with at least two joined players moves the phase
straight from WaitingForPlayers to Rolling (the Setup/SetupReverse rounds
are not entered: the single `start` step produces the Rolling phase
directly), sets the current player index to 0, and sets every player's
hand to exactly 2 of each of the five resources. -/
theorem c10_start_game_spec (g : Game) (pid : Int)
    (hp : (g.getPlayerById pid).isSome = true)
    (hphase : g.phase = GamePhase.waitingForPlayers)
    (hn : 2 ≤ g.players.length) :
    ∃ g2, startGame g pid = .ok g2 ∧ g2.phase = GamePhase.rolling ∧
      g2.currentPlayerIndex = 0 ∧ g2.players.length = g.players.length ∧
      ∀ p ∈ g2.players, p.resources = ⟨2, 2, 2, 2, 2⟩ := by
  obtain ⟨pl, hpl⟩ := Option.isSome_iff_exists.mp hp
  have hres : startGame g pid = .ok
      { g with
        phase := GamePhase.rolling,
        currentPlayerIndex := 0,
        players := g.players.map (fun p => { p with resources := ⟨2, 2, 2, 2, 2⟩ }) } := by
    unfold startGame
    rw [hpl, hphase]
    rw [if_neg (by simp), if_neg (by omega)]
  refine ⟨_, hres, rfl, rfl, by simp, ?_⟩
  intro p hp2
  simp only [List.mem_map] at hp2
  obtain ⟨q, hq, rfl⟩ := hp2
  rfl

/-- Witness for C10 at the concrete two-player lobby `gLobby`. -/
theorem c10_start_game_witness :
    (gLobby.getPlayerById 0).isSome = true ∧ gLobby.phase = GamePhase.waitingForPlayers ∧
    2 ≤ gLobby.players.length ∧
    (∃ g2, startGame gLobby 0 = .ok g2 ∧ g2.phase = GamePhase.rolling ∧
      g2.currentPlayerIndex = 0 ∧ g2.players.length = gLobby.players.length ∧
      ∀ p ∈ g2.players, p.resources = ⟨2, 2, 2, 2, 2⟩) :=
  ⟨by rfl, by rfl, by decide, c10_start_game_spec gLobby 0 (by rfl) (by rfl) (by decide)⟩

/-- Looking a player up by id after an id-preserving first-match update
sees the update applied to the found player. -/
theorem updatePlayer_find (pid : Int) (f : Player → Player) (hf : ∀ p, (f p).id = p.id) :
    ∀ l : List Player,
      (updatePlayer pid f l).find? (fun p => p.id = pid)
        = (l.find? (fun p => p.id = pid)).map f := by
  intro l
  induction l with
  | nil => rfl
  | cons p rest ih =>
    by_cases h : p.id = pid
    · simp [updatePlayer, h, List.find?_cons, hf]
    · simp [updatePlayer, h, List.find?_cons, ih]

/-- Reading the counter just written through `operator[]` (non-`None`). -/
theorem get_add_same (h : ResourceHand) (r : Resource) (n : Int) (hr : r ≠ Resource.none) :
    (h.add r n).get r = h.get r + n := by
  cases r <;> first
    | exact absurd rfl hr
    | simp [ResourceHand.add, ResourceHand.get]

/-- Writing one (non-`None`) counter leaves every other counter alone. -/
theorem get_add_ne (h : ResourceHand) (r s : Resource) (n : Int)
    (hr : r ≠ Resource.none) (hrs : r ≠ s) :
    (h.add r n).get s = h.get s := by
  cases r <;> cases s <;> first
    | exact absurd rfl hr
    | exact absurd rfl hrs
    | simp [ResourceHand.add, ResourceHand.get]

/-- C5 (amended): the ratio a bank trade applies is always 4:1 — 4 units
of the given resource for 1 of the received one — for every game state,
including states where the trading player owns a building adjacent to a
generic or resource-specific port (no port hypothesis appears below).
The 4/3/2 port schedule exists in the unused helper `getTradeRatio`
(see the C5 counterexample), and generated boards carry no ports at all,
so no reachable bank trade ever gets a port discount. -/
theorem c5_bank_trade_always_four_to_one (g : Game) (pid : Int)
    (give receive : Resource) (p : Player)
    (hturn : g.currentPlayerIndex = pid)
    (hphase : g.phase = GamePhase.mainTurn)
    (hgn : give ≠ Resource.none) (hrn : receive ≠ Resource.none) (hgr : give ≠ receive)
    (hp : g.getPlayerById pid = some p)
    (haff : 4 ≤ p.resources.get give) :
    ∃ g2 p2, bankTrade g pid give receive = .ok g2 ∧
      g2.getPlayerById pid = some p2 ∧
      p2.resources.get give = p.resources.get give - 4 ∧
      p2.resources.get receive = p.resources.get receive + 1 ∧
      ∀ r, r ≠ give → r ≠ receive → p2.resources.get r = p.resources.get r := by
  have hres : bankTrade g pid give receive = .ok
      { g with
        players := updatePlayer pid (fun q =>
          { q with resources := (q.resources.add give (-4)).add receive 1 }) g.players } := by
    simp only [bankTrade, hp]
    rw [if_neg (by simp [hturn]), if_neg (by simp [hphase]),
      if_neg (by rintro (h | h); exacts [hgn h, hrn h]), if_neg hgr,
      if_neg (by omega)]
  refine ⟨_, { p with resources := (p.resources.add give (-4)).add receive 1 },
    hres, ?_, ?_, ?_, ?_⟩
  · show (updatePlayer pid (fun q =>
        { q with resources := (q.resources.add give (-4)).add receive 1 }) g.players).find?
        (fun q => q.id = pid) = some _
    have hp2 : g.players.find? (fun q => decide (q.id = pid)) = some p := hp
    rw [updatePlayer_find pid (fun q =>
      { q with resources := (q.resources.add give (-4)).add receive 1 }) (fun q => rfl), hp2]
    rfl
  · rw [get_add_ne _ receive give 1 hrn (Ne.symm hgr), get_add_same _ give (-4) hgn]
    omega
  · rw [get_add_same _ receive 1 hrn, get_add_ne _ give receive (-4) hgn hgr]
  · intro r hrg hrr
    rw [get_add_ne _ receive r 1 hrn (Ne.symm hrr), get_add_ne _ give r (-4) hgn (Ne.symm hrg)]

/-- Witness for C5 at `gPort` (player 0: 4 wood, generic port building). -/
theorem c5_bank_trade_witness :
    gPort.currentPlayerIndex = 0 ∧ gPort.phase = GamePhase.mainTurn ∧
    (∃ g2 p2, bankTrade gPort 0 Resource.wood Resource.ore = .ok g2 ∧
      g2.getPlayerById 0 = some p2 ∧
      p2.resources.get Resource.wood = (⟨4, 2, 2, 2, 2⟩ : ResourceHand).get Resource.wood - 4 ∧
      p2.resources.get Resource.ore = (⟨4, 2, 2, 2, 2⟩ : ResourceHand).get Resource.ore + 1 ∧
      ∀ r, r ≠ Resource.wood → r ≠ Resource.ore →
        p2.resources.get r = (⟨4, 2, 2, 2, 2⟩ : ResourceHand).get r) :=
  ⟨rfl, rfl, c5_bank_trade_always_four_to_one gPort 0 Resource.wood Resource.ore
    ⟨0, ⟨4, 2, 2, 2, 2⟩, [], 5, 4, 15, 0, false, false⟩
    rfl rfl (by decide) (by decide) (by decide) rfl (by decide)⟩

/-- The building-tally loop counts 1 per owned settlement entry and 2 per
owned city entry. -/
theorem vpFold_eq (pid : Int) : ∀ (l : List (VertexCoord × Vertex)) (a : Int),
    l.foldl (vpStep pid) a
      = a + ((l.filter (fun cv =>
            cv.2.ownerPlayerId = pid ∧ cv.2.building = Building.settlement)).length : Int)
          + 2 * ((l.filter (fun cv =>
            cv.2.ownerPlayerId = pid ∧ cv.2.building = Building.city)).length : Int) := by
  intro l
  induction l with
  | nil => intro a; simp
  | cons cv rest ih =>
    intro a
    by_cases h1 : cv.2.ownerPlayerId = pid
    · by_cases h2 : cv.2.building = Building.settlement
      · have h3 : cv.2.building ≠ Building.city := by rw [h2]; intro h; cases h
        simp only [List.foldl_cons, vpStep, h1, h2, if_true, List.filter_cons]
        simp [h1, h2, h3, ih]
        ring
      · by_cases h3 : cv.2.building = Building.city
        · simp only [List.foldl_cons, vpStep, h1, h2, h3, if_true, if_false, List.filter_cons]
          simp [h1, h2, h3, ih]
          ring
        · simp only [List.foldl_cons, vpStep, h1, h2, h3, if_true, if_false, List.filter_cons]
          simp [h1, h2, h3, ih]
    · simp only [List.foldl_cons, vpStep, h1, if_false, List.filter_cons]
      simp [h1, ih]

/-- The engine's hidden-inclusive victory-point computation equals the
specification's formula (1/settlement, 2/city, 2 longest road, 2 largest
army, 1 per victory-point card). -/
theorem calcVP_eq_spec (g : Game) (pid : Int) :
    calculateVictoryPoints g pid true = victoryPointsSpec g pid := by
  unfold calculateVictoryPoints victoryPointsSpec
  rw [vpFold_eq]
  cases hfind : g.players.find? (fun p => p.id = pid) with
  | none => simp
  | some player => simp; ring

/-- The winner scan is the first-match search over the roster for a
specification victory-point total of at least 10. -/
theorem checkForWinnerGo_eq (g : Game) : ∀ l : List Player,
    checkForWinnerGo g l
      = (match l.find? (fun p => 10 ≤ victoryPointsSpec g p.id) with
         | some p => p.id
         | _ => -1) := by
  intro l
  induction l with
  | nil => rfl
  | cons p rest ih =>
    rw [checkForWinnerGo, calcVP_eq_spec]
    by_cases h : 10 ≤ victoryPointsSpec g p.id
    · simp [h, List.find?_cons]
    · simp [h, List.find?_cons, ih]

/-- C7: `checkForWinner` returns the id of the first player in roster
order whose total victory points including hidden victory-point cards
(1 per settlement, 2 per city, 2 for longest road, 2 for largest army,
1 per held victory-point card) reaches 10, and `-1` when nobody has;
a player with at most 9 points is never reported as the winner (player
ids distinct and non-negative, as the join flow assigns them). -/
theorem c7_check_for_winner_spec (g : Game)
    (hids : (g.players.map (fun p => p.id)).Nodup)
    (hid0 : ∀ p ∈ g.players, 0 ≤ p.id) :
    (∀ pid, calculateVictoryPoints g pid true = victoryPointsSpec g pid) ∧
    checkForWinner g
      = (match g.players.find? (fun p => 10 ≤ victoryPointsSpec g p.id) with
         | some p => p.id
         | _ => -1) ∧
    (∀ p ∈ g.players, victoryPointsSpec g p.id ≤ 9 → checkForWinner g ≠ p.id) := by
  refine ⟨fun pid => calcVP_eq_spec g pid, checkForWinnerGo_eq g g.players, ?_⟩
  intro p hp hvp
  rw [checkForWinner, checkForWinnerGo_eq g g.players]
  cases hfind : g.players.find? (fun q => 10 ≤ victoryPointsSpec g q.id) with
  | none =>
    have := hid0 p hp
    simp only []
    omega
  | some q =>
    have hq10 : 10 ≤ victoryPointsSpec g q.id := by
      have := List.find?_some hfind
      simpa using this
    have hqmem : q ∈ g.players := List.mem_of_find?_eq_some hfind
    simp only []
    intro hqp
    have : q = p := List.inj_on_of_nodup_map hids hqmem hp hqp
    rw [this] at hq10
    omega

/-- Witness for C7 at the concrete game `gMain` (both players at 0 VP,
winner check returns -1). -/
theorem c7_check_for_winner_witness :
    ((gMain.players.map (fun p => p.id)).Nodup ∧ ∀ p ∈ gMain.players, 0 ≤ p.id) ∧
    ((∀ pid, calculateVictoryPoints gMain pid true = victoryPointsSpec gMain pid) ∧
     checkForWinner gMain
       = (match gMain.players.find? (fun p => 10 ≤ victoryPointsSpec gMain p.id) with
          | some p => p.id
          | _ => -1) ∧
     (∀ p ∈ gMain.players, victoryPointsSpec gMain p.id ≤ 9 → checkForWinner gMain ≠ p.id)) :=
  ⟨⟨by decide, by decide⟩, c7_check_for_winner_spec gMain (by decide) (by decide)⟩

/-- The holder-scan fold either leaves the running (length, holder) pair
unchanged or ends at some player whose road length is at least 5 and
strictly above the starting record. -/
theorem lr_fold_cases (g : Game) : ∀ (l : List Player) (acc : Int × Int),
    l.foldl (lrStep g) acc = acc ∨
    ∃ p ∈ l, l.foldl (lrStep g) acc = (calculateLongestRoad g p.id, p.id) ∧
      5 ≤ calculateLongestRoad g p.id ∧ acc.1 < calculateLongestRoad g p.id := by
  intro l
  induction l with
  | nil => intro acc; left; rfl
  | cons p rest ih =>
    intro acc
    rw [List.foldl_cons]
    by_cases h : 5 ≤ calculateLongestRoad g p.id ∧ acc.1 < calculateLongestRoad g p.id
    · have hstep : lrStep g acc p = (calculateLongestRoad g p.id, p.id) := by
        unfold lrStep; rw [if_pos h]
      rw [hstep]
      rcases ih (calculateLongestRoad g p.id, p.id) with h2 | ⟨q, hq, h2, h3, h4⟩
      · right; exact ⟨p, by simp, by rw [h2], h.1, h.2⟩
      · right
        refine ⟨q, by simp [hq], h2, h3, ?_⟩
        have := h.2
        simp only at h4
        omega
    · have hstep : lrStep g acc p = acc := by unfold lrStep; rw [if_neg h]
      rw [hstep]
      rcases ih acc with h2 | ⟨q, hq, h2, h3, h4⟩
      · left; exact h2
      · right; exact ⟨q, by simp [hq], h2, h3, h4⟩

/-- When no player qualifies (length below 5 or not above the record),
the holder-scan fold returns its starting pair. -/
theorem lr_fold_stay (g : Game) : ∀ (l : List Player) (acc : Int × Int),
    (∀ p ∈ l, calculateLongestRoad g p.id < 5 ∨ calculateLongestRoad g p.id ≤ acc.1) →
    l.foldl (lrStep g) acc = acc := by
  intro l
  induction l with
  | nil => intro acc _; rfl
  | cons p rest ih =>
    intro acc hall
    rw [List.foldl_cons]
    have hstep : lrStep g acc p = acc := by
      unfold lrStep
      rw [if_neg]
      rcases hall p (by simp) with h | h <;> omega
    rw [hstep]
    exact ih acc (fun q hq => hall q (by simp [hq]))

/-- With duplicate-free player ids the first-match update is the
pointwise update of the matching player. -/
theorem updatePlayer_eq_map (pid : Int) (f : Player → Player) :
    ∀ l : List Player, (l.map (fun p => p.id)).Nodup →
      updatePlayer pid f l = l.map (fun p => if p.id = pid then f p else p) := by
  intro l
  induction l with
  | nil => intro _; rfl
  | cons p rest ih =>
    intro hnd
    rw [List.map_cons, List.nodup_cons] at hnd
    by_cases h : p.id = pid
    · rw [updatePlayer, if_pos h, List.map_cons, if_pos h]
      congr 1
      have : ∀ q ∈ rest, (if q.id = pid then f q else q) = q := by
        intro q hq
        rw [if_neg]
        intro hqp
        apply hnd.1
        rw [h, ← hqp]
        exact List.mem_map_of_mem _ hq
      rw [List.map_congr_left this, List.map_id']
    · rw [updatePlayer, if_neg h, List.map_cons, if_neg h, ih hnd.2]

/-- On a holder change the flag bookkeeping sets the new holder's flag,
clears the old holder's, and touches nobody else. -/
theorem lrFlags_map (g : Game) (newPid : Int)
    (hids : (g.players.map (fun p => p.id)).Nodup)
    (hid0 : ∀ p ∈ g.players, 0 ≤ p.id)
    (hnew : 0 ≤ newPid) (hneq : newPid ≠ g.longestRoadPlayerId) :
    lrFlags g newPid = g.players.map (fun p =>
      if p.id = newPid then { p with hasLongestRoad := true }
      else if p.id = g.longestRoadPlayerId then { p with hasLongestRoad := false }
      else p) := by
  unfold lrFlags
  by_cases hold : 0 ≤ g.longestRoadPlayerId
  · rw [if_pos hold, if_pos hnew]
    rw [updatePlayer_eq_map _ _ g.players hids]
    have hidm : ((g.players.map (fun p =>
        if p.id = g.longestRoadPlayerId then { p with hasLongestRoad := false } else p)).map
          (fun p => p.id)) = g.players.map (fun p => p.id) := by
      rw [List.map_map]
      apply List.map_congr_left
      intro p _
      by_cases hp : p.id = g.longestRoadPlayerId <;> simp [hp]
    rw [updatePlayer_eq_map _ _ _ (by rw [hidm]; exact hids)]
    rw [List.map_map]
    apply List.map_congr_left
    intro p _
    by_cases h1 : p.id = newPid
    · have h2 : ¬ p.id = g.longestRoadPlayerId := by rw [h1]; exact hneq
      simp only [Function.comp_apply, if_neg h2, if_pos h1]
    · by_cases h2 : p.id = g.longestRoadPlayerId
      · simp only [Function.comp_apply, if_pos h2, if_neg h1]
      · simp only [Function.comp_apply, if_neg h2, if_neg h1]
  · rw [if_neg hold, if_pos hnew]
    rw [updatePlayer_eq_map _ _ g.players hids]
    apply List.map_congr_left
    intro p hp
    by_cases h1 : p.id = newPid
    · simp [h1]
    · have h2 : ¬ p.id = g.longestRoadPlayerId := by
        have := hid0 p hp
        omega
      simp [h1, h2]

/-- C8: after `updateLongestRoad`, the longest-road holder changes only
when some player's computed length is at least the threshold 5 and
strictly greater than the recorded length — if nobody qualifies (in
particular on any tie with the record) the game is returned unchanged —
and when the holder does change, the previous holder's `hasLongestRoad`
flag is cleared and the new holder's is set, with all other players
untouched (player ids distinct and non-negative, as the join flow
assigns them). -/
theorem c8_longest_road_title_transfer (g : Game)
    (hids : (g.players.map (fun p => p.id)).Nodup)
    (hid0 : ∀ p ∈ g.players, 0 ≤ p.id) :
    ((∀ p ∈ g.players, calculateLongestRoad g p.id < 5 ∨
        calculateLongestRoad g p.id ≤ g.longestRoadLength) → updateLongestRoad g = g) ∧
    ((updateLongestRoad g).longestRoadPlayerId ≠ g.longestRoadPlayerId →
      ∃ p ∈ g.players, p.id = (updateLongestRoad g).longestRoadPlayerId ∧
        5 ≤ calculateLongestRoad g p.id ∧
        g.longestRoadLength < calculateLongestRoad g p.id) ∧
    ((updateLongestRoad g).longestRoadPlayerId ≠ g.longestRoadPlayerId →
      (updateLongestRoad g).players = g.players.map (fun p =>
        if p.id = (updateLongestRoad g).longestRoadPlayerId then { p with hasLongestRoad := true }
        else if p.id = g.longestRoadPlayerId then { p with hasLongestRoad := false }
        else p)) := by
  refine ⟨?_, ?_, ?_⟩
  · intro hall
    have hstay := lr_fold_stay g g.players (g.longestRoadLength, g.longestRoadPlayerId)
      (by intro p hp; exact hall p hp)
    simp only [updateLongestRoad]
    rw [hstay]
    simp
  · intro hch
    rcases lr_fold_cases g g.players (g.longestRoadLength, g.longestRoadPlayerId) with
      hc | ⟨p, hp, heq, h5, hgt⟩
    · exfalso
      apply hch
      simp only [updateLongestRoad]
      rw [hc]
      simp
    · by_cases h : (calculateLongestRoad g p.id, p.id).2 = g.longestRoadPlayerId
      · exfalso
        apply hch
        simp only [updateLongestRoad]
        rw [heq, if_neg (by simpa using h)]
      · have holder : (updateLongestRoad g).longestRoadPlayerId = p.id := by
          simp only [updateLongestRoad]
          rw [heq, if_pos (by simpa using h)]
        exact ⟨p, hp, holder.symm, h5, hgt⟩
  · intro hch
    rcases lr_fold_cases g g.players (g.longestRoadLength, g.longestRoadPlayerId) with
      hc | ⟨p, hp, heq, h5, hgt⟩
    · exfalso
      apply hch
      simp only [updateLongestRoad]
      rw [hc]
      simp
    · by_cases h : (calculateLongestRoad g p.id, p.id).2 = g.longestRoadPlayerId
      · exfalso
        apply hch
        simp only [updateLongestRoad]
        rw [heq, if_neg (by simpa using h)]
      · have holder : (updateLongestRoad g).longestRoadPlayerId = p.id := by
          simp only [updateLongestRoad]
          rw [heq, if_pos (by simpa using h)]
        have hplayers : (updateLongestRoad g).players = lrFlags g p.id := by
          simp only [updateLongestRoad]
          rw [heq, if_pos (by simpa using h)]
        rw [hplayers, holder]
        exact lrFlags_map g p.id hids hid0 (hid0 p hp) (by simpa using h)

/-- Witness for C8 at `gMain` (no roads, so no holder change). -/
theorem c8_longest_road_title_witness :
    ((gMain.players.map (fun p => p.id)).Nodup ∧ ∀ p ∈ gMain.players, 0 ≤ p.id) ∧
    ((∀ p ∈ gMain.players, calculateLongestRoad gMain p.id < 5 ∨
        calculateLongestRoad gMain p.id ≤ gMain.longestRoadLength) →
      updateLongestRoad gMain = gMain) ∧
    updateLongestRoad gMain = gMain :=
  ⟨⟨by decide, by decide⟩,
   (c8_longest_road_title_transfer gMain (by decide) (by decide)).1,
   (c8_longest_road_title_transfer gMain (by decide) (by decide)).1 (by decide)⟩

/-- The optional robber steal never touches the board. -/
theorem stealStep_board (g1 : Game) (pid stealFrom : Int) (pick : Nat) :
    (stealStep g1 pid stealFrom pick).board = g1.board := by
  unfold stealStep
  repeat' split
  all_goals rfl

/-- A successful lookup's key/value pair is an entry of the list. -/
theorem alookup_some_mem {κ α : Type} [DecidableEq κ] (k : κ) (v : α) :
    ∀ l : List (κ × α), alookup k l = some v → (k, v) ∈ l := by
  intro l
  induction l with
  | nil => intro h; cases h
  | cons p rest ih =>
    intro h
    rw [alookup] at h
    by_cases hk : p.1 = k
    · rw [if_pos hk] at h
      have hv : p.2 = v := by injection h
      rw [← hv, ← hk]
      exact List.mem_cons_self _ _
    · rw [if_neg hk] at h
      exact List.mem_cons_of_mem _ (ih h)

/-- A successful lookup's key occurs among the keys. -/
theorem alookup_mem_keys {κ α : Type} [DecidableEq κ] (k : κ) (v : α)
    (l : List (κ × α)) (h : alookup k l = some v) : k ∈ l.map (fun p => p.1) := by
  have := alookup_some_mem k v l h
  exact List.mem_map_of_mem _ this

/-- A first-match map update leaves the key list unchanged. -/
theorem aupdate_keys {κ α : Type} [DecidableEq κ] (k : κ) (f : α → α) :
    ∀ l : List (κ × α), (aupdate k f l).map (fun p => p.1) = l.map (fun p => p.1) := by
  intro l
  induction l with
  | nil => rfl
  | cons p rest ih =>
    rw [aupdate]
    by_cases hk : p.1 = k
    · rw [if_pos hk]
      simp
    · rw [if_neg hk]
      simp [ih]

/-- Entries of a first-match update: either untouched with another key,
or key-matching entries (the first rewritten, later duplicates kept). -/
theorem mem_aupdate {κ α : Type} [DecidableEq κ] (k : κ) (f : α → α) :
    ∀ l : List (κ × α), ∀ p ∈ aupdate k f l,
      (p.1 ≠ k ∧ p ∈ l) ∨ (p.1 = k ∧ (p ∈ l ∨ ∃ v, (k, v) ∈ l ∧ p = (k, f v))) := by
  intro l
  induction l with
  | nil => intro p hp; cases hp
  | cons q rest ih =>
    intro p hp
    rw [aupdate] at hp
    by_cases hk : q.1 = k
    · rw [if_pos hk] at hp
      rcases List.mem_cons.mp hp with hp | hp
      · right
        constructor
        · rw [hp, hk]
        · right
          refine ⟨q.2, ?_, by rw [hp, hk]⟩
          rw [← hk]
          exact List.mem_cons_self _ _
      · by_cases hpk : p.1 = k
        · exact Or.inr ⟨hpk, Or.inl (List.mem_cons_of_mem _ hp)⟩
        · exact Or.inl ⟨hpk, List.mem_cons_of_mem _ hp⟩
    · rw [if_neg hk] at hp
      rcases List.mem_cons.mp hp with hp | hp
      · by_cases hpk : p.1 = k
        · exact Or.inr ⟨hpk, Or.inl (by rw [hp]; exact List.mem_cons_self _ _)⟩
        · exact Or.inl ⟨hpk, by rw [hp]; exact List.mem_cons_self _ _⟩
      · rcases ih p hp with ⟨h1, h2⟩ | ⟨h1, h2⟩
        · exact Or.inl ⟨h1, List.mem_cons_of_mem _ h2⟩
        · rcases h2 with h2 | ⟨v, hv, hpv⟩
          · exact Or.inr ⟨h1, Or.inl (List.mem_cons_of_mem _ h2)⟩
          · exact Or.inr ⟨h1, Or.inr ⟨v, List.mem_cons_of_mem _ hv, hpv⟩⟩

/-- With duplicate-free keys, updating an existing entry puts the
rewritten pair in the result. -/
theorem mem_aupdate_self {κ α : Type} [DecidableEq κ] (k : κ) (f : α → α) (v : α) :
    ∀ l : List (κ × α), (k, v) ∈ l → (l.map (fun p => p.1)).Nodup →
      (k, f v) ∈ aupdate k f l := by
  intro l
  induction l with
  | nil => intro h; cases h
  | cons q rest ih =>
    intro hmem hnd
    rw [List.map_cons, List.nodup_cons] at hnd
    rw [aupdate]
    rcases List.mem_cons.mp hmem with h | h
    · rw [if_pos (by rw [← h])]
      rw [← h]
      exact List.mem_cons_self _ _
    · by_cases hk : q.1 = k
      · exfalso
        apply hnd.1
        rw [hk]
        exact List.mem_map_of_mem _ h
      · rw [if_neg hk]
        exact List.mem_cons_of_mem _ (ih h hnd.2)

/-- With duplicate-free keys, a present key owns exactly one entry. -/
theorem count_key_one {κ α : Type} [DecidableEq κ] (k : κ) :
    ∀ l : List (κ × α), (l.map (fun p => p.1)).Nodup → k ∈ l.map (fun p => p.1) →
      (l.filter (fun p => p.1 = k)).length = 1 := by
  intro l
  induction l with
  | nil => intro _ h; cases h
  | cons q rest ih =>
    intro hnd hmem
    rw [List.map_cons, List.nodup_cons] at hnd
    rw [List.filter_cons]
    by_cases hk : q.1 = k
    · rw [if_pos (by simp [hk])]
      have hz : (rest.filter (fun p => p.1 = k)).length = 0 := by
        rw [List.length_eq_zero, List.filter_eq_nil_iff]
        intro p hp
        simp only [decide_eq_true_eq]
        intro hpk
        exact hnd.1 (by rw [hk, ← hpk]; exact List.mem_map_of_mem _ hp)
      simp [hz]
    · rw [if_neg (by simp [hk])]
      apply ih hnd.2
      rw [List.map_cons] at hmem
      rcases List.mem_cons.mp hmem with h | h
      · exact absurd h.symm hk
      · exact h


/-- Entries of a first-match update under duplicate-free keys: either an
untouched entry with a different key, or the rewritten entry. -/
theorem mem_aupdate_nodup {κ α : Type} [DecidableEq κ] (k : κ) (f : α → α) :
    ∀ l : List (κ × α), (l.map (fun p => p.1)).Nodup →
      ∀ p ∈ aupdate k f l,
        (p.1 ≠ k ∧ p ∈ l) ∨ ∃ v, (k, v) ∈ l ∧ p = (k, f v) := by
  intro l
  induction l with
  | nil => intro _ p hp; cases hp
  | cons q rest ih =>
    intro hnd p hp
    rw [List.map_cons, List.nodup_cons] at hnd
    rw [aupdate] at hp
    by_cases hk : q.1 = k
    · rw [if_pos hk] at hp
      rcases List.mem_cons.mp hp with h | h
      · right
        refine ⟨q.2, ?_, by rw [h, hk]⟩
        rw [← hk]
        exact List.mem_cons_self _ _
      · left
        constructor
        · intro hpk
          apply hnd.1
          rw [hk, ← hpk]
          exact List.mem_map_of_mem _ h
        · exact List.mem_cons_of_mem _ h
    · rw [if_neg hk] at hp
      rcases List.mem_cons.mp hp with h | h
      · left
        exact ⟨by rw [h]; exact hk, by rw [h]; exact List.mem_cons_self _ _⟩
      · rcases ih hnd.2 p h with ⟨h1, h2⟩ | ⟨v, hv, hpv⟩
        · exact Or.inl ⟨h1, List.mem_cons_of_mem _ h2⟩
        · exact Or.inr ⟨v, List.mem_cons_of_mem _ hv, hpv⟩

/-- Hex placement flags the robber exactly on desert hexes. -/
theorem genHexes_entries : ∀ (l : List (HexCoord × HexType)) (nums : List Int),
    ∀ p ∈ (genHexes l nums).1, (p.2.hasRobber = true ↔ p.2.type = HexType.desert) := by
  intro l
  induction l with
  | nil => intro nums p hp; cases hp
  | cons q rest ih =>
    intro nums p hp
    obtain ⟨c, t⟩ := q
    by_cases ht : t = HexType.desert
    · simp only [genHexes, if_pos ht] at hp
      rcases List.mem_cons.mp hp with h | h
      · rw [h]; simp [ht]
      · exact ih nums p h
    · simp only [genHexes, if_neg ht] at hp
      rcases List.mem_cons.mp hp with h | h
      · rw [h]; simp [ht]
      · exact ih nums.tail p h

/-- Hex placement creates one robber flag per desert terrain drawn. -/
theorem genHexes_count : ∀ (l : List (HexCoord × HexType)) (nums : List Int),
    ((genHexes l nums).1.filter (fun p => p.2.hasRobber)).length
      = (l.filter (fun q => q.2 = HexType.desert)).length := by
  intro l
  induction l with
  | nil => intro nums; rfl
  | cons q rest ih =>
    intro nums
    obtain ⟨c, t⟩ := q
    by_cases ht : t = HexType.desert
    · simp only [genHexes, if_pos ht, List.filter_cons]
      simp [ht, ih nums]
    · simp only [genHexes, if_neg ht, List.filter_cons]
      simp [ht, ih nums.tail]

/-- Hex placement keys the map by the given coordinates, in order. -/
theorem genHexes_keys : ∀ (l : List (HexCoord × HexType)) (nums : List Int),
    (genHexes l nums).1.map (fun p => p.1) = l.map (fun p => p.1) := by
  intro l
  induction l with
  | nil => intro nums; rfl
  | cons q rest ih =>
    intro nums
    obtain ⟨c, t⟩ := q
    by_cases ht : t = HexType.desert
    · simp only [genHexes, if_pos ht, List.map_cons]
      rw [ih nums]
    · simp only [genHexes, if_neg ht, List.map_cons]
      rw [ih nums.tail]

/-- Without a desert, hex placement reports no robber seat. -/
theorem genHexes_nodesert : ∀ (l : List (HexCoord × HexType)) (nums : List Int),
    (l.filter (fun q => q.2 = HexType.desert)).length = 0 →
    (genHexes l nums).2.2 = Option.none := by
  intro l
  induction l with
  | nil => intro nums _; rfl
  | cons q rest ih =>
    intro nums hz
    obtain ⟨c, t⟩ := q
    rw [List.filter_cons] at hz
    by_cases ht : t = HexType.desert
    · rw [if_pos (by simp [ht])] at hz
      simp at hz
    · rw [if_neg (by simp [ht])] at hz
      simp only [genHexes, if_neg ht]
      exact ih nums.tail hz

/-- With exactly one desert (and distinct coordinates), hex placement
reports the desert's coordinate as the robber seat and stores there a
desert hex with token 0 carrying the robber. -/
theorem genHexes_onedesert : ∀ (l : List (HexCoord × HexType)) (nums : List Int),
    (l.map (fun p => p.1)).Nodup →
    (l.filter (fun q => q.2 = HexType.desert)).length = 1 →
    ∃ c, (genHexes l nums).2.2 = some c ∧
      alookup c (genHexes l nums).1 = some ⟨c, HexType.desert, 0, true⟩ := by
  intro l
  induction l with
  | nil => intro nums _ h; cases h
  | cons q rest ih =>
    intro nums hnd hone
    obtain ⟨c, t⟩ := q
    rw [List.map_cons, List.nodup_cons] at hnd
    rw [List.filter_cons] at hone
    by_cases ht : t = HexType.desert
    · rw [if_pos (by simp [ht])] at hone
      rw [List.length_cons] at hone
      have hrob := genHexes_nodesert rest nums (by omega)
      refine ⟨c, ?_, ?_⟩
      · simp only [genHexes, if_pos ht, hrob]
        rfl
      · simp only [genHexes, if_pos ht]
        rw [alookup, if_pos rfl, ht]
    · rw [if_neg (by simp [ht])] at hone
      obtain ⟨c2, hc2, hlook⟩ := ih nums.tail hnd.2 hone
      refine ⟨c2, ?_, ?_⟩
      · simp only [genHexes, if_neg ht]
        exact hc2
      · simp only [genHexes, if_neg ht]
        rw [alookup, if_neg]
        · exact hlook
        · intro hcc
          apply hnd.1
          rw [hcc]
          have := alookup_mem_keys c2 _ _ hlook
          rw [genHexes_keys] at this
          exact this


/-- The keys of a zip form a sublist of the first list. -/
theorem zip_keys_sublist {α β : Type} :
    ∀ (l1 : List α) (l2 : List β), ((l1.zip l2).map (fun p => p.1)).Sublist l1 := by
  intro l1
  induction l1 with
  | nil => intro l2; simp
  | cons a rest ih =>
    intro l2
    cases l2 with
    | nil => simp
    | cons b r2 =>
      rw [List.zip_cons_cons, List.map_cons]
      exact List.Sublist.cons₂ a (ih r2)

/-- C9 (amended): board generation flags the robber exactly on desert
hexes, and with exactly one desert in the drawn terrain the generated
board has exactly one robber-flagged hex, seated at `robberLocation`,
which is the desert (token 0).  Every move-robber command whose target
hex exists on the board clears the old hex's flag and sets the target's,
so that afterwards the flagged entries are exactly the target and the
robber count is exactly one — for every steal argument and random pick.
(The counterexample theorem shows the unguarded claim fails for
off-board targets.) -/
theorem c9_robber_invariant :
    (∀ (res : List HexType) (nums : List Int),
       ∀ p ∈ (generateBoard res nums).hexes,
         (p.2.hasRobber = true ↔ p.2.type = HexType.desert)) ∧
    (∀ (res : List HexType) (nums : List Int),
       ((landHexCoords.zip res).filter (fun q => q.2 = HexType.desert)).length = 1 →
       robberCount (generateBoard res nums) = 1 ∧
       alookup (generateBoard res nums).robberLocation (generateBoard res nums).hexes
         = some ⟨(generateBoard res nums).robberLocation, HexType.desert, 0, true⟩) ∧
    (∀ (g : Game) (pid hexQ hexR stealFrom : Int) (pick : Nat),
       g.phase = GamePhase.robber →
       (g.getPlayerById pid).isSome = true →
       g.currentPlayerIndex = pid →
       (g.board.hexes.map (fun p => p.1)).Nodup →
       (∀ p ∈ g.board.hexes, (p.2.hasRobber = true ↔ p.1 = g.board.robberLocation)) →
       (alookup (⟨hexQ, hexR⟩ : HexCoord) g.board.hexes).isSome = true →
       ∃ g2, moveRobberTool g pid hexQ hexR stealFrom pick = .ok g2 ∧
         g2.board.robberLocation = ⟨hexQ, hexR⟩ ∧
         (∀ p ∈ g2.board.hexes, (p.2.hasRobber = true ↔ p.1 = (⟨hexQ, hexR⟩ : HexCoord))) ∧
         robberCount g2.board = 1) := by
  refine ⟨?_, ?_, ?_⟩
  · intro res nums p hp
    exact genHexes_entries (landHexCoords.zip res) nums p hp
  · intro res nums hone
    have hnd : ((landHexCoords.zip res).map (fun p => p.1)).Nodup :=
      List.Nodup.sublist (zip_keys_sublist landHexCoords res) (by decide)
    obtain ⟨c, hc, hlook⟩ := genHexes_onedesert (landHexCoords.zip res) nums hnd hone
    have hloc : (generateBoard res nums).robberLocation = c := by
      unfold generateBoard
      simp only [hc]
      rfl
    constructor
    · unfold robberCount
      show ((genHexes (landHexCoords.zip res) nums).1.filter (fun p => p.2.hasRobber)).length = 1
      rw [genHexes_count, hone]
    · rw [hloc]
      exact hlook
  · intro g pid hexQ hexR stealFrom pick hphase hp hturn hnd hinv hpresent
    obtain ⟨pl, hpl⟩ := Option.isSome_iff_exists.mp hp
    obtain ⟨hv, hvmem⟩ := Option.isSome_iff_exists.mp hpresent
    have htmem : (⟨hexQ, hexR⟩ : HexCoord) ∈ g.board.hexes.map (fun p => p.1) :=
      alookup_mem_keys _ _ _ hvmem
    have hres : moveRobberTool g pid hexQ hexR stealFrom pick = .ok
        { stealStep { g with board := { g.board with
            hexes := aupdate (⟨hexQ, hexR⟩ : HexCoord) (fun hx => { hx with hasRobber := true })
              (aupdate g.board.robberLocation (fun hx => { hx with hasRobber := false })
                g.board.hexes),
            robberLocation := ⟨hexQ, hexR⟩ } } pid stealFrom pick
          with phase := GamePhase.mainTurn } := by
      simp only [moveRobberTool, hpl]
      rw [if_neg (by simp [hturn]), if_neg (by simp [hphase])]
    have hnd1 : ((aupdate g.board.robberLocation
        (fun hx => { hx with hasRobber := false }) g.board.hexes).map (fun p => p.1)).Nodup := by
      rw [aupdate_keys]
      exact hnd
    have hboard : (stealStep { g with board := { g.board with
        hexes := aupdate (⟨hexQ, hexR⟩ : HexCoord) (fun hx => { hx with hasRobber := true })
          (aupdate g.board.robberLocation (fun hx => { hx with hasRobber := false })
            g.board.hexes),
        robberLocation := ⟨hexQ, hexR⟩ } } pid stealFrom pick).board
      = { g.board with
          hexes := aupdate (⟨hexQ, hexR⟩ : HexCoord) (fun hx => { hx with hasRobber := true })
            (aupdate g.board.robberLocation (fun hx => { hx with hasRobber := false })
              g.board.hexes),
          robberLocation := ⟨hexQ, hexR⟩ } := stealStep_board _ _ _ _
    have hiff : ∀ p ∈ aupdate (⟨hexQ, hexR⟩ : HexCoord)
        (fun hx => { hx with hasRobber := true })
        (aupdate g.board.robberLocation (fun hx => { hx with hasRobber := false })
          g.board.hexes),
        (p.2.hasRobber = true ↔ p.1 = (⟨hexQ, hexR⟩ : HexCoord)) := by
      intro p hp2
      rcases mem_aupdate_nodup _ _ _ hnd1 p hp2 with ⟨hne, hmem1⟩ | ⟨v, hvm, hpv⟩
      · rcases mem_aupdate_nodup _ _ _ hnd p hmem1 with ⟨hne2, hmem0⟩ | ⟨v, hvm, hpv⟩
        · constructor
          · intro hr
            exact absurd ((hinv p hmem0).mp hr) hne2
          · intro ht
            exact absurd ht hne
        · constructor
          · intro hr
            rw [hpv] at hr
            cases hr
          · intro ht
            exact absurd ht hne
      · constructor
        · intro _
          rw [hpv]
        · intro _
          rw [hpv]
    refine ⟨_, hres, ?_, ?_, ?_⟩
    · show (stealStep _ pid stealFrom pick).board.robberLocation = _
      rw [hboard]
    · show ∀ p ∈ (stealStep _ pid stealFrom pick).board.hexes, _
      rw [hboard]
      exact hiff
    · show robberCount (stealStep _ pid stealFrom pick).board = 1
      rw [hboard]
      unfold robberCount
      have hfeq : (aupdate (⟨hexQ, hexR⟩ : HexCoord)
          (fun hx => { hx with hasRobber := true })
          (aupdate g.board.robberLocation (fun hx => { hx with hasRobber := false })
            g.board.hexes)).filter (fun ch => ch.2.hasRobber)
        = (aupdate (⟨hexQ, hexR⟩ : HexCoord)
          (fun hx => { hx with hasRobber := true })
          (aupdate g.board.robberLocation (fun hx => { hx with hasRobber := false })
            g.board.hexes)).filter (fun ch => ch.1 = (⟨hexQ, hexR⟩ : HexCoord)) := by
        apply List.filter_congr
        intro p hp2
        rcases hiff p hp2 with ⟨h1, h2⟩
        by_cases hb : p.1 = (⟨hexQ, hexR⟩ : HexCoord)
        · simp [hb, h2 hb]
        · rw [decide_eq_false hb]
          cases hr : p.2.hasRobber
          · rfl
          · exact absurd (h1 hr) hb
      rw [hfeq]
      apply count_key_one
      · rw [aupdate_keys, aupdate_keys]
        exact hnd
      · rw [aupdate_keys, aupdate_keys]
        exact htmem


/-- Witness for C9: the standard board (one desert) and a concrete legal
robber move from the desert to hex `(1,-1)` in `gRob`. -/
theorem c9_robber_invariant_witness :
    (∀ p ∈ (generateBoard stdResources stdNumbers).hexes,
       (p.2.hasRobber = true ↔ p.2.type = HexType.desert)) ∧
    (((landHexCoords.zip stdResources).filter (fun q => q.2 = HexType.desert)).length = 1 ∧
     robberCount (generateBoard stdResources stdNumbers) = 1) ∧
    (gRob.phase = GamePhase.robber ∧
     (alookup (⟨1, -1⟩ : HexCoord) gRob.board.hexes).isSome = true ∧
     ∃ g2, moveRobberTool gRob 0 1 (-1) (-1) 0 = .ok g2 ∧
       g2.board.robberLocation = ⟨1, -1⟩ ∧
       (∀ p ∈ g2.board.hexes, (p.2.hasRobber = true ↔ p.1 = (⟨1, -1⟩ : HexCoord))) ∧
       robberCount g2.board = 1) :=
  ⟨c9_robber_invariant.1 stdResources stdNumbers,
   ⟨by decide, (c9_robber_invariant.2.1 stdResources stdNumbers (by decide)).1⟩,
   ⟨rfl, by rfl,
    c9_robber_invariant.2.2 gRob 0 1 (-1) (-1) 0 rfl (by rfl) rfl
      (by decide) (by decide) (by rfl)⟩⟩

theorem alookup_append {κ α : Type} [DecidableEq κ] (k : κ) :
    ∀ l1 l2 : List (κ × α), alookup k (l1 ++ l2)
      = match alookup k l1 with
        | some v => some v
        | _ => alookup k l2 := by
  intro l1 l2
  induction l1 with
  | nil => rfl
  | cons p rest ih =>
    rw [List.cons_append, alookup, alookup]
    by_cases hk : p.1 = k
    · rw [if_pos hk, if_pos hk]
    · rw [if_neg hk, if_neg hk, ih]

theorem chainEdge_even (m : Nat) : chainEdge (2 * m) = ⟨⟨0, (m : Int)⟩, 1⟩ := by
  unfold chainEdge chainHex
  have h1 : 2 * m / 2 = m := by omega
  have h2 : 2 * m % 2 = 0 := by omega
  rw [h1, h2, if_pos rfl]

theorem chainEdge_odd (m : Nat) : chainEdge (2 * m + 1) = ⟨⟨0, (m : Int)⟩, 2⟩ := by
  unfold chainEdge chainHex
  have h1 : (2 * m + 1) / 2 = m := by omega
  have h2 : (2 * m + 1) % 2 = 1 := by omega
  rw [h1, h2]
  rw [if_neg (by omega)]

theorem chainEdge_inj (i j : Nat) (h : chainEdge i = chainEdge j) : i = j := by
  unfold chainEdge chainHex at h
  injection h with h1 h2
  injection h1 with hq hr
  have hr2 : i / 2 = j / 2 := by exact_mod_cast hr
  by_cases hi : i % 2 = 0 <;> by_cases hj : j % 2 = 0
  · omega
  · rw [if_pos hi, if_neg hj] at h2; cases h2
  · rw [if_neg hi, if_pos hj] at h2; cases h2
  · omega

theorem chainEdge_eq_A (j m : Nat) : chainEdge j = ⟨⟨0, (m : Int)⟩, 1⟩ ↔ j = 2 * m := by
  constructor
  · intro h
    exact chainEdge_inj j (2 * m) (by rw [h, chainEdge_even])
  · intro h
    rw [h, chainEdge_even]

theorem chainEdge_eq_B (j m : Nat) : chainEdge j = ⟨⟨0, (m : Int)⟩, 2⟩ ↔ j = 2 * m + 1 := by
  constructor
  · intro h
    exact chainEdge_inj j (2 * m + 1) (by rw [h, chainEdge_odd])
  · intro h
    rw [h, chainEdge_odd]

theorem chainEdge_ne_of (e : EdgeCoord)
    (he : e.hex.q ≠ 0 ∨ (e.direction ≠ 1 ∧ e.direction ≠ 2)) (j : Nat) :
    chainEdge j ≠ e := by
  intro h
  unfold chainEdge chainHex at h
  rcases he with hq | ⟨h1, h2⟩
  · apply hq
    rw [← h]
  · by_cases hj : j % 2 = 0
    · rw [hj, if_pos rfl] at h
      exact h1 (by rw [← h])
    · rw [if_neg hj] at h
      exact h2 (by rw [← h])

theorem chainEdgesList_succ (N : Nat) :
    chainEdgesList (N + 1) = chainEdgesList N ++ [(chainEdge N, ⟨chainEdge N, true, 0⟩)] := by
  unfold chainEdgesList
  rw [List.range_succ, List.map_append, List.map_singleton]

theorem alookup_chainEdgesList_none (e : EdgeCoord) :
    ∀ N : Nat, (∀ j, j < N → chainEdge j ≠ e) → alookup e (chainEdgesList N) = Option.none := by
  intro N
  induction N with
  | zero => intro _; rfl
  | succ N ih =>
    intro he
    rw [chainEdgesList_succ, alookup_append]
    rw [ih (fun j hj => he j (by omega))]
    show alookup e [(chainEdge N, _)] = Option.none
    rw [alookup, if_neg (he N (by omega))]
    rfl

theorem alookup_chainEdgesList_some (j : Nat) :
    ∀ N : Nat, j < N →
      alookup (chainEdge j) (chainEdgesList N) = some ⟨chainEdge j, true, 0⟩ := by
  intro N
  induction N with
  | zero => intro h; omega
  | succ N ih =>
    intro hj
    rw [chainEdgesList_succ, alookup_append]
    by_cases h : j < N
    · rw [ih h]
    · have hjN : j = N := by omega
      rw [alookup_chainEdgesList_none _ N (fun j2 hj2 h2 => by
        have := chainEdge_inj j2 j h2
        omega)]
      show alookup (chainEdge j) [(chainEdge N, _)] = _
      rw [alookup, if_pos (by rw [hjN])]
      rw [hjN]

theorem roadAt_chain (N : Nat) (o : Option Nat) (e : EdgeCoord) :
    roadAt (chainGame N o) 0 e = true ↔ ∃ j, j < N ∧ chainEdge j = e := by
  unfold roadAt
  have hedges : (chainGame N o).board.edges = chainEdgesList N := rfl
  rw [hedges]
  by_cases h : ∃ j, j < N ∧ chainEdge j = e
  · obtain ⟨j, hj, hje⟩ := h
    rw [← hje, alookup_chainEdgesList_some j N hj]
    simp
    exact ⟨j, hj, rfl⟩
  · rw [alookup_chainEdgesList_none e N (fun j hj hje => h ⟨j, hj, hje⟩)]
    simpa using h

theorem blockedAt_chain (N : Nat) (o : Option Nat) (v : VertexCoord) :
    blockedAt (chainGame N o) 0 v = true ↔ ∃ t, o = some t ∧ v = blockerKey t := by
  unfold blockedAt
  have hv : (chainGame N o).board.vertices = blockerEntries o := rfl
  rw [hv]
  cases o with
  | none =>
    show (match alookup v ([] : List (VertexCoord × Vertex)) with
      | some vx => (decide (vx.building ≠ Building.none) && decide (vx.ownerPlayerId ≠ 0) : Bool)
      | _ => false) = true ↔ _
    simp [alookup]
  | some t =>
    rw [blockerEntries]
    by_cases h : blockerKey t = v
    · rw [alookup, if_pos h]
      simp only [Option.some.injEq]
      constructor
      · intro _
        exact ⟨t, rfl, h.symm⟩
      · intro _
        rfl
    · rw [alookup, if_neg h]
      show (match alookup v ([] : List (VertexCoord × Vertex)) with
        | some vx => (decide (vx.building ≠ Building.none) && decide (vx.ownerPlayerId ≠ 0) : Bool)
        | _ => false) = true ↔ _
      simp only [alookup]
      constructor
      · intro hfalse
        cases hfalse
      · rintro ⟨t2, ht2, hvt⟩
        injection ht2 with ht2
        exact absurd (hvt ▸ congrArg blockerKey ht2 ▸ rfl : blockerKey t = v) h

theorem blockerKey_odd (m : Nat) : blockerKey (2 * m + 1) = ⟨⟨0, (m : Int)⟩, 2⟩ := by
  unfold blockerKey chainHex
  rw [if_pos (by omega)]
  have : (2 * m + 1) / 2 = m := by omega
  rw [this]

theorem blockerKey_even (m : Nat) : blockerKey (2 * m + 2) = ⟨⟨0, (m : Int)⟩, 3⟩ := by
  unfold blockerKey chainHex
  rw [if_neg (by omega)]
  have : (2 * m + 2) / 2 - 1 = m := by omega
  rw [this]

theorem blockerKey_dir (t : Nat) :
    (blockerKey t).direction = 2 ∨ (blockerKey t).direction = 3 := by
  unfold blockerKey
  by_cases h : t % 2 = 1
  · rw [if_pos h]; left; rfl
  · rw [if_neg h]; right; rfl

theorem blockerKey_eq_2 (t m : Nat) : blockerKey t = ⟨⟨0, (m : Int)⟩, 2⟩ ↔ t = 2 * m + 1 := by
  constructor
  · intro h
    unfold blockerKey chainHex at h
    by_cases ht : t % 2 = 1
    · rw [if_pos ht] at h
      injection h with h1 _
      injection h1 with _ hr
      have : t / 2 = m := by exact_mod_cast hr
      omega
    · rw [if_neg ht] at h
      injection h with _ h2
      exact absurd h2 (by decide)
  · intro h
    rw [h, blockerKey_odd]

theorem blockerKey_eq_3 (t m : Nat) (ht : 1 ≤ t) :
    blockerKey t = ⟨⟨0, (m : Int)⟩, 3⟩ ↔ t = 2 * m + 2 := by
  constructor
  · intro h
    unfold blockerKey chainHex at h
    by_cases hp : t % 2 = 1
    · rw [if_pos hp] at h
      injection h with _ h2
      exact absurd h2 (by decide)
    · rw [if_neg hp] at h
      injection h with h1 _
      injection h1 with _ hr
      have : t / 2 - 1 = m := by exact_mod_cast hr
      omega
  · intro h
    rw [h, blockerKey_even]

theorem blockedAt_two (N : Nat) (o : Option Nat) (m : Nat) :
    blockedAt (chainGame N o) 0 ⟨⟨0, (m : Int)⟩, 2⟩ = true ↔ o = some (2 * m + 1) := by
  rw [blockedAt_chain]
  constructor
  · rintro ⟨t, ho, hv⟩
    rw [ho, (blockerKey_eq_2 t m).mp hv.symm]
  · intro ho
    exact ⟨2 * m + 1, ho, (blockerKey_odd m).symm⟩

theorem blockedAt_three (N : Nat) (o : Option Nat) (hpos : ∀ t, o = some t → 1 ≤ t) (m : Nat) :
    blockedAt (chainGame N o) 0 ⟨⟨0, (m : Int)⟩, 3⟩ = true ↔ o = some (2 * m + 2) := by
  rw [blockedAt_chain]
  constructor
  · rintro ⟨t, ho, hv⟩
    rw [ho, (blockerKey_eq_3 t m (hpos t ho)).mp hv.symm]
  · intro ho
    exact ⟨2 * m + 2, ho, (blockerKey_even m).symm⟩

theorem blockedAt_other (N : Nat) (o : Option Nat) (v : VertexCoord)
    (hd : v.direction ≠ 2 ∧ v.direction ≠ 3) :
    blockedAt (chainGame N o) 0 v = false := by
  rw [← Bool.not_eq_true, blockedAt_chain]
  rintro ⟨t, _, hv⟩
  rcases blockerKey_dir t with h2 | h3
  · exact hd.1 (hv ▸ h2)
  · exact hd.2 (hv ▸ h3)

theorem roadAt_off (N : Nat) (o : Option Nat) (e : EdgeCoord)
    (he : e.hex.q ≠ 0 ∨ (e.direction ≠ 1 ∧ e.direction ≠ 2)) :
    roadAt (chainGame N o) 0 e = false := by
  rw [← Bool.not_eq_true, roadAt_chain]
  rintro ⟨j, _, hje⟩
  exact chainEdge_ne_of e he j hje

theorem dfs_candidates_even (N : Nat) (o : Option Nat) (m : Nat) (V' : List EdgeCoord)
    (hself : chainEdge (2 * m) ∈ V') :
    dfsCandidates (chainGame N o) 0 V' (chainEdge (2 * m))
      = if o ≠ some (2 * m + 1) ∧ 2 * m + 1 < N ∧ chainEdge (2 * m + 1) ∉ V'
        then [chainEdge (2 * m + 1)] else [] := by
  rw [chainEdge_even] at hself ⊢
  unfold dfsCandidates
  have hv : getVerticesOfEdge ⟨⟨0, (m : Int)⟩, 1⟩
      = (⟨⟨0, (m : Int)⟩, 1⟩, ⟨⟨0, (m : Int)⟩, 2⟩) := rfl
  rw [hv]
  have he1 : getEdgesAtVertex ⟨⟨0, (m : Int)⟩, 1⟩
      = [⟨⟨0, (m : Int)⟩, 1⟩, ⟨⟨0, (m : Int)⟩, 0⟩, ⟨⟨0 + 1, (m : Int) + (-1)⟩, 5⟩] := rfl
  have he2 : getEdgesAtVertex ⟨⟨0, (m : Int)⟩, 2⟩
      = [⟨⟨0, (m : Int)⟩, 2⟩, ⟨⟨0, (m : Int)⟩, 1⟩, ⟨⟨0 + 1, (m : Int) + 0⟩, 0⟩] := rfl
  have hb1 : blockedAt (chainGame N o) 0 ⟨⟨0, (m : Int)⟩, 1⟩ = false :=
    blockedAt_other N o _ ⟨by show (1 : Fin 6) ≠ 2; decide, by show (1 : Fin 6) ≠ 3; decide⟩
  have ha1 : ¬(roadAt (chainGame N o) 0 ⟨⟨0, (m : Int)⟩, 1⟩ = true
      ∧ (⟨⟨0, (m : Int)⟩, 1⟩ : EdgeCoord) ∉ V') := fun h => h.2 hself
  have ha2 : ¬(roadAt (chainGame N o) 0 ⟨⟨0, (m : Int)⟩, 0⟩ = true
      ∧ (⟨⟨0, (m : Int)⟩, 0⟩ : EdgeCoord) ∉ V') := by
    rintro ⟨hr, _⟩
    rw [roadAt_off N o _ (Or.inr ⟨by show (0 : Fin 6) ≠ 1; decide,
      by show (0 : Fin 6) ≠ 2; decide⟩)] at hr
    cases hr
  have ha3 : ¬(roadAt (chainGame N o) 0 ⟨⟨1, (m : Int) + (-1)⟩, 5⟩ = true
      ∧ (⟨⟨1, (m : Int) + (-1)⟩, 5⟩ : EdgeCoord) ∉ V') := by
    rintro ⟨hr, _⟩
    rw [roadAt_off N o _ (Or.inl (by norm_num))] at hr
    cases hr
  have ha5 : ¬(roadAt (chainGame N o) 0 ⟨⟨1, (m : Int)⟩, 0⟩ = true
      ∧ (⟨⟨1, (m : Int)⟩, 0⟩ : EdgeCoord) ∉ V') := by
    rintro ⟨hr, _⟩
    rw [roadAt_off N o _ (Or.inl (by norm_num))] at hr
    cases hr
  by_cases hblk : o = some (2 * m + 1)
  · have hb2 : blockedAt (chainGame N o) 0 ⟨⟨0, (m : Int)⟩, 2⟩ = true :=
      (blockedAt_two N o m).mpr hblk
    rw [if_neg (fun h => h.1 hblk)]
    simp [List.filter_cons, hb1, hb2, he1, ha1, ha2, ha3]
  · have hb2 : blockedAt (chainGame N o) 0 ⟨⟨0, (m : Int)⟩, 2⟩ = false :=
      Bool.eq_false_iff.mpr (fun h => hblk ((blockedAt_two N o m).mp h))
    by_cases hfwd : 2 * m + 1 < N ∧ chainEdge (2 * m + 1) ∉ V'
    · have ha4 : roadAt (chainGame N o) 0 ⟨⟨0, (m : Int)⟩, 2⟩ = true
          ∧ (⟨⟨0, (m : Int)⟩, 2⟩ : EdgeCoord) ∉ V' := by
        constructor
        · exact (roadAt_chain N o _).mpr ⟨2 * m + 1, hfwd.1, chainEdge_odd m⟩
        · rw [← chainEdge_odd m]
          exact hfwd.2
      rw [if_pos ⟨hblk, hfwd.1, hfwd.2⟩, chainEdge_odd]
      simp [List.filter_cons, hb1, hb2, he1, he2, ha1, ha2, ha3, ha5, ha4.1, ha4.2]
    · have ha4 : ¬(roadAt (chainGame N o) 0 ⟨⟨0, (m : Int)⟩, 2⟩ = true
          ∧ (⟨⟨0, (m : Int)⟩, 2⟩ : EdgeCoord) ∉ V') := by
        rintro ⟨hr, hm2⟩
        obtain ⟨j, hj, hje⟩ := (roadAt_chain N o _).mp hr
        have hj2 : j = 2 * m + 1 := (chainEdge_eq_B j m).mp hje
        exact hfwd ⟨hj2 ▸ hj, by rw [chainEdge_odd]; exact hm2⟩
      rw [if_neg (fun h => hfwd ⟨h.2.1, h.2.2⟩)]
      simp [List.filter_cons, hb1, hb2, he1, he2, ha1, ha2, ha3, ha5, ha4]

theorem dfs_candidates_odd (N : Nat) (o : Option Nat) (hpos : ∀ t, o = some t → 1 ≤ t)
    (m : Nat) (V' : List EdgeCoord)
    (hself : chainEdge (2 * m + 1) ∈ V')
    (hback : o = some (2 * m + 1) ∨ chainEdge (2 * m) ∈ V') :
    dfsCandidates (chainGame N o) 0 V' (chainEdge (2 * m + 1))
      = if o ≠ some (2 * m + 2) ∧ 2 * m + 2 < N ∧ chainEdge (2 * m + 2) ∉ V'
        then [chainEdge (2 * m + 2)] else [] := by
  rw [chainEdge_odd] at hself ⊢
  unfold dfsCandidates
  have hv : getVerticesOfEdge ⟨⟨0, (m : Int)⟩, 2⟩
      = (⟨⟨0, (m : Int)⟩, 2⟩, ⟨⟨0, (m : Int)⟩, 3⟩) := rfl
  rw [hv]
  have he1 : getEdgesAtVertex ⟨⟨0, (m : Int)⟩, 2⟩
      = [⟨⟨0, (m : Int)⟩, 2⟩, ⟨⟨0, (m : Int)⟩, 1⟩, ⟨⟨0 + 1, (m : Int) + 0⟩, 0⟩] := rfl
  have he2 : getEdgesAtVertex ⟨⟨0, (m : Int)⟩, 3⟩
      = [⟨⟨0, (m : Int)⟩, 3⟩, ⟨⟨0, (m : Int)⟩, 2⟩, ⟨⟨0 + 0, (m : Int) + 1⟩, 1⟩] := rfl
  have hc3 : (⟨⟨0, (m : Int) + 1⟩, 1⟩ : EdgeCoord) = chainEdge (2 * m + 2) := by
    have h2 : ((m : Int) + 1) = ((m + 1 : Nat) : Int) := by push_cast; ring
    have h3 : 2 * (m + 1) = 2 * m + 2 := by omega
    rw [h2, ← h3, chainEdge_even]
  have ha1 : ¬(roadAt (chainGame N o) 0 ⟨⟨0, (m : Int)⟩, 2⟩ = true
      ∧ (⟨⟨0, (m : Int)⟩, 2⟩ : EdgeCoord) ∉ V') := fun h => h.2 hself
  have ha3 : ¬(roadAt (chainGame N o) 0 ⟨⟨1, (m : Int)⟩, 0⟩ = true
      ∧ (⟨⟨1, (m : Int)⟩, 0⟩ : EdgeCoord) ∉ V') := by
    rintro ⟨hr, _⟩
    rw [roadAt_off N o _ (Or.inl (by norm_num))] at hr
    cases hr
  have ha4 : ¬(roadAt (chainGame N o) 0 ⟨⟨0, (m : Int)⟩, 3⟩ = true
      ∧ (⟨⟨0, (m : Int)⟩, 3⟩ : EdgeCoord) ∉ V') := by
    rintro ⟨hr, _⟩
    rw [roadAt_off N o _ (Or.inr ⟨by show (3 : Fin 6) ≠ 1; decide,
      by show (3 : Fin 6) ≠ 2; decide⟩)] at hr
    cases hr
  have hb2 : blockedAt (chainGame N o) 0 ⟨⟨0, (m : Int)⟩, 3⟩ = true ↔ o = some (2 * m + 2) :=
    blockedAt_three N o hpos m
  by_cases hv1blk : o = some (2 * m + 1)
  · have hb1 : blockedAt (chainGame N o) 0 ⟨⟨0, (m : Int)⟩, 2⟩ = true :=
      (blockedAt_two N o m).mpr hv1blk
    have hv2 : o ≠ some (2 * m + 2) := by
      rw [hv1blk]
      intro h
      injection h with h
      omega
    have hb2f : blockedAt (chainGame N o) 0 ⟨⟨0, (m : Int)⟩, 3⟩ = false :=
      Bool.eq_false_iff.mpr (fun h => hv2 (hb2.mp h))
    by_cases hfwd : 2 * m + 2 < N ∧ chainEdge (2 * m + 2) ∉ V'
    · have ha5 : roadAt (chainGame N o) 0 ⟨⟨0, (m : Int) + 1⟩, 1⟩ = true
          ∧ (⟨⟨0, (m : Int) + 1⟩, 1⟩ : EdgeCoord) ∉ V' := by
        rw [hc3]
        exact ⟨(roadAt_chain N o _).mpr ⟨2 * m + 2, hfwd.1, rfl⟩, hfwd.2⟩
      rw [if_pos ⟨hv2, hfwd.1, hfwd.2⟩, ← hc3]
      simp [List.filter_cons, hb1, hb2f, he2, ha1, ha4, ha5.1, ha5.2]
    · have ha5 : ¬(roadAt (chainGame N o) 0 ⟨⟨0, (m : Int) + 1⟩, 1⟩ = true
          ∧ (⟨⟨0, (m : Int) + 1⟩, 1⟩ : EdgeCoord) ∉ V') := by
        rw [hc3]
        rintro ⟨hr, hm2⟩
        obtain ⟨j, hj, hje⟩ := (roadAt_chain N o _).mp hr
        have := chainEdge_inj j (2 * m + 2) (by rw [hje])
        exact hfwd ⟨this ▸ hj, hm2⟩
      rw [if_neg (fun h => hfwd ⟨h.2.1, h.2.2⟩)]
      simp [List.filter_cons, hb1, hb2f, he2, ha1, ha4, ha5]
  · have hb1 : blockedAt (chainGame N o) 0 ⟨⟨0, (m : Int)⟩, 2⟩ = false :=
      Bool.eq_false_iff.mpr (fun h => hv1blk ((blockedAt_two N o m).mp h))
    have hbe : chainEdge (2 * m) ∈ V' := hback.resolve_left hv1blk
    have ha2 : ¬(roadAt (chainGame N o) 0 ⟨⟨0, (m : Int)⟩, 1⟩ = true
        ∧ (⟨⟨0, (m : Int)⟩, 1⟩ : EdgeCoord) ∉ V') := by
      rintro ⟨_, hm2⟩
      rw [← chainEdge_even m] at hm2
      exact hm2 hbe
    by_cases hv2blk : o = some (2 * m + 2)
    · have hb2t : blockedAt (chainGame N o) 0 ⟨⟨0, (m : Int)⟩, 3⟩ = true := hb2.mpr hv2blk
      rw [if_neg (fun h => h.1 hv2blk)]
      simp [List.filter_cons, hb1, hb2t, he1, ha1, ha2, ha3]
    · have hb2f : blockedAt (chainGame N o) 0 ⟨⟨0, (m : Int)⟩, 3⟩ = false :=
        Bool.eq_false_iff.mpr (fun h => hv2blk (hb2.mp h))
      by_cases hfwd : 2 * m + 2 < N ∧ chainEdge (2 * m + 2) ∉ V'
      · have ha5 : roadAt (chainGame N o) 0 ⟨⟨0, (m : Int) + 1⟩, 1⟩ = true
            ∧ (⟨⟨0, (m : Int) + 1⟩, 1⟩ : EdgeCoord) ∉ V' := by
          rw [hc3]
          exact ⟨(roadAt_chain N o _).mpr ⟨2 * m + 2, hfwd.1, rfl⟩, hfwd.2⟩
        rw [if_pos ⟨hv2blk, hfwd.1, hfwd.2⟩, ← hc3]
        simp [List.filter_cons, hb1, hb2f, he1, he2, ha1, ha2, ha3, ha4, ha5.1, ha5.2]
      · have ha5 : ¬(roadAt (chainGame N o) 0 ⟨⟨0, (m : Int) + 1⟩, 1⟩ = true
            ∧ (⟨⟨0, (m : Int) + 1⟩, 1⟩ : EdgeCoord) ∉ V') := by
          rw [hc3]
          rintro ⟨hr, hm2⟩
          obtain ⟨j, hj, hje⟩ := (roadAt_chain N o _).mp hr
          have := chainEdge_inj j (2 * m + 2) (by rw [hje])
          exact hfwd ⟨this ▸ hj, hm2⟩
        rw [if_neg (fun h => hfwd ⟨h.2.1, h.2.2⟩)]
        simp [List.filter_cons, hb1, hb2f, he1, he2, ha1, ha2, ha3, ha4, ha5]

theorem dfs_walk (N : Nat) (o : Option Nat) (hpos : ∀ t, o = some t → 1 ≤ t) :
    ∀ (fuel i s : Nat) (V : List EdgeCoord) (d : Int),
      i < s → s ≤ N →
      (s = N ∨ o = some s ∨ chainEdge s ∈ V) →
      (∀ j, i ≤ j → j < s → chainEdge j ∉ V) →
      (∀ t, o = some t → t ≤ i ∨ s ≤ t) →
      (i % 2 = 1 → (o = some i ∨ chainEdge (i - 1) ∈ V)) →
      s - i ≤ fuel →
      longestRoadDFS (chainGame N o) 0 fuel (chainEdge i) V d
        = d + ((s - i - 1 : Nat) : Int) := by
  intro fuel
  induction fuel with
  | zero =>
    intro i s V d his _ _ _ _ _ hfuel
    omega
  | succ fuel ih =>
    intro i s V d his hsN hstop hV hno hback hfuel
    have hmem : chainEdge i ∉ V := hV i le_rfl his
    simp only [longestRoadDFS]
    rw [if_neg hmem]
    obtain ⟨m, hm | hm⟩ : ∃ m, i = 2 * m ∨ i = 2 * m + 1 := ⟨i / 2, by omega⟩
    · subst hm
      rw [dfs_candidates_even N o m (chainEdge (2 * m) :: V) (List.mem_cons_self _ _)]
      by_cases hlt : 2 * m + 1 < s
      · have hcond : o ≠ some (2 * m + 1) ∧ 2 * m + 1 < N
            ∧ chainEdge (2 * m + 1) ∉ chainEdge (2 * m) :: V := by
          refine ⟨?_, by omega, ?_⟩
          · intro h
            rcases hno _ h with h2 | h2 <;> omega
          · intro hmem2
            rcases List.mem_cons.mp hmem2 with heq | hmem3
            · have := chainEdge_inj _ _ heq
              omega
            · exact hV (2 * m + 1) (by omega) hlt hmem3
        rw [if_pos hcond, List.foldl_cons, List.foldl_nil]
        rw [ih (2 * m + 1) s (chainEdge (2 * m) :: V) (d + 1) hlt hsN
          (by rcases hstop with h | h | h
              · exact Or.inl h
              · exact Or.inr (Or.inl h)
              · exact Or.inr (Or.inr (List.mem_cons_of_mem _ h)))
          (by intro j hj1 hj2 hmem2
              rcases List.mem_cons.mp hmem2 with heq | hmem3
              · have := chainEdge_inj _ _ heq
                omega
              · exact hV j (by omega) hj2 hmem3)
          (by intro t ht
              rcases hno t ht with h2 | h2 <;> omega)
          (by intro _
              refine Or.inr ?_
              have h21 : 2 * m + 1 - 1 = 2 * m := by omega
              rw [h21]
              exact List.mem_cons_self _ _)
          (by omega)]
        have h1 : s - (2 * m + 1) - 1 = s - 2 * m - 2 := by omega
        have h2 : s - 2 * m - 1 = (s - 2 * m - 2) + 1 := by omega
        rw [h1, h2]
        have hc := Int.natCast_nonneg (s - 2 * m - 2)
        rw [max_eq_right (by omega)]
        push_cast
        ring
      · have hseq : s = 2 * m + 1 := by omega
        have hcond : ¬(o ≠ some (2 * m + 1) ∧ 2 * m + 1 < N
            ∧ chainEdge (2 * m + 1) ∉ chainEdge (2 * m) :: V) := by
          rintro ⟨hc1, hc2, hc3⟩
          rcases hstop with h | h | h
          · omega
          · exact hc1 (hseq ▸ h)
          · exact hc3 (List.mem_cons_of_mem _ (hseq ▸ h))
        rw [if_neg hcond, List.foldl_nil]
        have h0 : s - 2 * m - 1 = 0 := by omega
        rw [h0]
        simp
    · subst hm
      rw [dfs_candidates_odd N o hpos m (chainEdge (2 * m + 1) :: V) (List.mem_cons_self _ _)
        (by rcases hback (by omega) with h | h
            · exact Or.inl h
            · have h21 : 2 * m + 1 - 1 = 2 * m := by omega
              rw [h21] at h
              exact Or.inr (List.mem_cons_of_mem _ h))]
      by_cases hlt : 2 * m + 2 < s
      · have hcond : o ≠ some (2 * m + 2) ∧ 2 * m + 2 < N
            ∧ chainEdge (2 * m + 2) ∉ chainEdge (2 * m + 1) :: V := by
          refine ⟨?_, by omega, ?_⟩
          · intro h
            rcases hno _ h with h2 | h2 <;> omega
          · intro hmem2
            rcases List.mem_cons.mp hmem2 with heq | hmem3
            · have := chainEdge_inj _ _ heq
              omega
            · exact hV (2 * m + 2) (by omega) hlt hmem3
        rw [if_pos hcond, List.foldl_cons, List.foldl_nil]
        rw [ih (2 * m + 2) s (chainEdge (2 * m + 1) :: V) (d + 1) hlt hsN
          (by rcases hstop with h | h | h
              · exact Or.inl h
              · exact Or.inr (Or.inl h)
              · exact Or.inr (Or.inr (List.mem_cons_of_mem _ h)))
          (by intro j hj1 hj2 hmem2
              rcases List.mem_cons.mp hmem2 with heq | hmem3
              · have := chainEdge_inj _ _ heq
                omega
              · exact hV j (by omega) hj2 hmem3)
          (by intro t ht
              rcases hno t ht with h2 | h2 <;> omega)
          (by intro habs
              exact absurd habs (by omega))
          (by omega)]
        have h1 : s - (2 * m + 2) - 1 = s - (2 * m + 1) - 2 := by omega
        have h2 : s - (2 * m + 1) - 1 = (s - (2 * m + 1) - 2) + 1 := by omega
        rw [h1, h2]
        have hc := Int.natCast_nonneg (s - (2 * m + 1) - 2)
        rw [max_eq_right (by omega)]
        push_cast
        ring
      · have hseq : s = 2 * m + 2 := by omega
        have hcond : ¬(o ≠ some (2 * m + 2) ∧ 2 * m + 2 < N
            ∧ chainEdge (2 * m + 2) ∉ chainEdge (2 * m + 1) :: V) := by
          rintro ⟨hc1, hc2, hc3⟩
          rcases hstop with h | h | h
          · omega
          · exact hc1 (hseq ▸ h)
          · exact hc3 (List.mem_cons_of_mem _ (hseq ▸ h))
        rw [if_neg hcond, List.foldl_nil]
        have h0 : s - (2 * m + 1) - 1 = 0 := by omega
        rw [h0]
        simp

theorem stopAt_facts (N : Nat) (o : Option Nat) (hpos : ∀ t, o = some t → 1 ≤ t ∧ t < N)
    (i : Nat) (hi : i < N) :
    i < stopAt N o i ∧ stopAt N o i ≤ N
      ∧ (stopAt N o i = N ∨ o = some (stopAt N o i))
      ∧ (∀ t, o = some t → t ≤ i ∨ stopAt N o i ≤ t) := by
  cases o with
  | none =>
    exact ⟨hi, le_rfl, Or.inl rfl, fun t ht => by cases ht⟩
  | some b =>
    obtain ⟨hb1, hb2⟩ := hpos b rfl
    simp only [stopAt]
    by_cases hib : i < b
    · rw [if_pos hib]
      refine ⟨hib, by omega, Or.inr rfl, ?_⟩
      intro t ht
      injection ht with ht
      omega
    · rw [if_neg hib]
      refine ⟨hi, le_rfl, Or.inl rfl, ?_⟩
      intro t ht
      injection ht with ht
      omega

theorem dfs_start_even (N : Nat) (o : Option Nat) (hpos : ∀ t, o = some t → 1 ≤ t ∧ t < N)
    (m : Nat) (hm : 2 * m < N) (fuel : Nat) (hfuel : N ≤ fuel) :
    longestRoadDFS (chainGame N o) 0 fuel (chainEdge (2 * m)) [] 1
      = ((stopAt N o (2 * m) - 2 * m : Nat) : Int) := by
  obtain ⟨hs1, hs2, hs3, hs4⟩ := stopAt_facts N o hpos (2 * m) hm
  rw [dfs_walk N o (fun t ht => (hpos t ht).1) fuel (2 * m) (stopAt N o (2 * m)) [] 1 hs1 hs2
    (by rcases hs3 with h | h
        · exact Or.inl h
        · exact Or.inr (Or.inl h))
    (fun j _ _ h => (List.not_mem_nil _ h))
    hs4
    (by intro h; omega)
    (by omega)]
  have h1 : stopAt N o (2 * m) - 2 * m = (stopAt N o (2 * m) - 2 * m - 1) + 1 := by omega
  rw [h1]
  push_cast
  ring

theorem dfs_candidates_odd_start (N : Nat) (o : Option Nat)
    (hpos : ∀ t, o = some t → 1 ≤ t) (m : Nat)
    (hiN : 2 * m + 1 < N) (ho : o ≠ some (2 * m + 1)) :
    dfsCandidates (chainGame N o) 0 [chainEdge (2 * m + 1)] (chainEdge (2 * m + 1))
      = chainEdge (2 * m) ::
        (if o ≠ some (2 * m + 2) ∧ 2 * m + 2 < N then [chainEdge (2 * m + 2)] else []) := by
  rw [chainEdge_odd]
  unfold dfsCandidates
  have hv : getVerticesOfEdge ⟨⟨0, (m : Int)⟩, 2⟩
      = (⟨⟨0, (m : Int)⟩, 2⟩, ⟨⟨0, (m : Int)⟩, 3⟩) := rfl
  rw [hv]
  have he1 : getEdgesAtVertex ⟨⟨0, (m : Int)⟩, 2⟩
      = [⟨⟨0, (m : Int)⟩, 2⟩, ⟨⟨0, (m : Int)⟩, 1⟩, ⟨⟨0 + 1, (m : Int) + 0⟩, 0⟩] := rfl
  have he2 : getEdgesAtVertex ⟨⟨0, (m : Int)⟩, 3⟩
      = [⟨⟨0, (m : Int)⟩, 3⟩, ⟨⟨0, (m : Int)⟩, 2⟩, ⟨⟨0 + 0, (m : Int) + 1⟩, 1⟩] := rfl
  have hc3 : (⟨⟨0, (m : Int) + 1⟩, 1⟩ : EdgeCoord) = chainEdge (2 * m + 2) := by
    have h2 : ((m : Int) + 1) = ((m + 1 : Nat) : Int) := by push_cast; ring
    have h3 : 2 * (m + 1) = 2 * m + 2 := by omega
    rw [h2, ← h3, chainEdge_even]
  have hb1 : blockedAt (chainGame N o) 0 ⟨⟨0, (m : Int)⟩, 2⟩ = false :=
    Bool.eq_false_iff.mpr (fun h => ho ((blockedAt_two N o m).mp h))
  have hr2 : roadAt (chainGame N o) 0 ⟨⟨0, (m : Int)⟩, 1⟩ = true :=
    (roadAt_chain N o _).mpr ⟨2 * m, by omega, chainEdge_even m⟩
  have hr3 : roadAt (chainGame N o) 0 ⟨⟨1, (m : Int)⟩, 0⟩ = false :=
    roadAt_off N o _ (Or.inl (by norm_num))
  have hr4 : roadAt (chainGame N o) 0 ⟨⟨0, (m : Int)⟩, 3⟩ = false :=
    roadAt_off N o _ (Or.inr ⟨by show (3 : Fin 6) ≠ 1; decide,
      by show (3 : Fin 6) ≠ 2; decide⟩)
  by_cases hv2blk : o = some (2 * m + 2)
  · have hb2t : blockedAt (chainGame N o) 0 ⟨⟨0, (m : Int)⟩, 3⟩ = true :=
      (blockedAt_three N o hpos m).mpr hv2blk
    rw [if_neg (fun h => h.1 hv2blk), chainEdge_even]
    simp [List.filter_cons, hb1, hb2t, he1, hr2, hr3]
  · have hb2f : blockedAt (chainGame N o) 0 ⟨⟨0, (m : Int)⟩, 3⟩ = false :=
      Bool.eq_false_iff.mpr (fun h => hv2blk ((blockedAt_three N o hpos m).mp h))
    by_cases hfwd : 2 * m + 2 < N
    · have hr5 : roadAt (chainGame N o) 0 ⟨⟨0, (m : Int) + 1⟩, 1⟩ = true := by
        rw [hc3]
        exact (roadAt_chain N o _).mpr ⟨2 * m + 2, hfwd, rfl⟩
      rw [if_pos ⟨hv2blk, hfwd⟩, chainEdge_even, ← hc3]
      simp [List.filter_cons, hb1, hb2f, he1, he2, hr2, hr3, hr4, hr5]
    · have hr5 : roadAt (chainGame N o) 0 ⟨⟨0, (m : Int) + 1⟩, 1⟩ = false := by
        rw [hc3, ← Bool.not_eq_true, roadAt_chain]
        rintro ⟨j, hj, hje⟩
        have := chainEdge_inj j (2 * m + 2) hje
        omega
      rw [if_neg (fun h => hfwd h.2), chainEdge_even]
      simp [List.filter_cons, hb1, hb2f, he1, he2, hr2, hr3, hr4, hr5]

theorem dfs_start_odd_blocked (N : Nat) (o : Option Nat)
    (hpos : ∀ t, o = some t → 1 ≤ t ∧ t < N) (m : Nat) (hm : 2 * m + 1 < N)
    (ho : o = some (2 * m + 1)) (fuel : Nat) (hfuel : N ≤ fuel) :
    longestRoadDFS (chainGame N o) 0 fuel (chainEdge (2 * m + 1)) [] 1
      = ((N - (2 * m + 1) : Nat) : Int) := by
  obtain ⟨F, rfl⟩ : ∃ F, fuel = F + 1 := ⟨fuel - 1, by omega⟩
  simp only [longestRoadDFS]
  rw [if_neg (List.not_mem_nil _)]
  rw [dfs_candidates_odd N o (fun t ht => (hpos t ht).1) m _ (List.mem_cons_self _ _)
    (Or.inl ho)]
  have hne2 : o ≠ some (2 * m + 2) := by
    rw [ho]
    intro h
    injection h with h
    omega
  by_cases hN2 : 2 * m + 2 < N
  · have hnm : chainEdge (2 * m + 2) ∉ ([chainEdge (2 * m + 1)] : List EdgeCoord) := by
      intro h
      have := chainEdge_inj (2 * m + 2) (2 * m + 1) (List.mem_singleton.mp h)
      omega
    rw [if_pos ⟨hne2, hN2, hnm⟩, List.foldl_cons, List.foldl_nil]
    rw [dfs_walk N o (fun t ht => (hpos t ht).1) F (2 * m + 2) N
      (chainEdge (2 * m + 1) :: []) (1 + 1) hN2 le_rfl (Or.inl rfl)
      (by intro j hj1 _ hmem
          have := chainEdge_inj j (2 * m + 1) (List.mem_singleton.mp hmem)
          omega)
      (by intro t ht
          rw [ho] at ht
          injection ht with ht
          omega)
      (by intro h; omega)
      (by omega)]
    have h1 : N - (2 * m + 2) - 1 = N - 2 * m - 3 := by omega
    have h2 : N - (2 * m + 1) = (N - 2 * m - 3) + 2 := by omega
    rw [h1, h2]
    have hc := Int.natCast_nonneg (N - 2 * m - 3)
    rw [max_eq_right (by omega)]
    push_cast
    ring
  · rw [if_neg (fun h => hN2 h.2.1), List.foldl_nil]
    have h1 : N - (2 * m + 1) = 1 := by omega
    rw [h1]
    simp

theorem dfs_start_odd_free (N : Nat) (o : Option Nat)
    (hpos : ∀ t, o = some t → 1 ≤ t ∧ t < N) (m : Nat) (hm : 2 * m + 1 < N)
    (ho : o ≠ some (2 * m + 1)) (fuel : Nat) (hfuel : N ≤ fuel) :
    longestRoadDFS (chainGame N o) 0 fuel (chainEdge (2 * m + 1)) [] 1
      = if o ≠ some (2 * m + 2) ∧ 2 * m + 2 < N
        then ((stopAt N o (2 * m + 2) - (2 * m + 1) : Nat) : Int) else 2 := by
  obtain ⟨F, rfl⟩ : ∃ F, fuel = F + 1 := ⟨fuel - 1, by omega⟩
  simp only [longestRoadDFS]
  rw [if_neg (List.not_mem_nil _)]
  rw [dfs_candidates_odd_start N o (fun t ht => (hpos t ht).1) m hm ho]
  rw [List.foldl_cons]
  rw [dfs_walk N o (fun t ht => (hpos t ht).1) F (2 * m) (2 * m + 1)
    (chainEdge (2 * m + 1) :: []) (1 + 1) (by omega) (by omega)
    (Or.inr (Or.inr (List.mem_cons_self _ _)))
    (by intro j hj1 hj2 hmem
        have := chainEdge_inj j (2 * m + 1) (List.mem_singleton.mp hmem)
        omega)
    (by intro t _; omega)
    (by intro h; omega)
    (by omega)]
  have h0 : 2 * m + 1 - 2 * m - 1 = 0 := by omega
  rw [h0]
  have hacc : max 1 (1 + 1 + ((0 : Nat) : Int)) = 2 := by norm_num
  rw [hacc]
  by_cases hfcond : o ≠ some (2 * m + 2) ∧ 2 * m + 2 < N
  · rw [if_pos hfcond, if_pos hfcond, List.foldl_cons, List.foldl_nil]
    obtain ⟨hs1, hs2, hs3, hs4⟩ := stopAt_facts N o hpos (2 * m + 2) hfcond.2
    rw [dfs_walk N o (fun t ht => (hpos t ht).1) F (2 * m + 2) (stopAt N o (2 * m + 2))
      (chainEdge (2 * m + 1) :: []) (1 + 1) hs1 hs2
      (by rcases hs3 with h | h
          · exact Or.inl h
          · exact Or.inr (Or.inl h))
      (by intro j hj1 _ hmem
          have := chainEdge_inj j (2 * m + 1) (List.mem_singleton.mp hmem)
          omega)
      hs4
      (by intro h; omega)
      (by omega)]
    have h1 : stopAt N o (2 * m + 2) - (2 * m + 2) - 1 = stopAt N o (2 * m + 2) - 2 * m - 3 := by
      omega
    have h2 : stopAt N o (2 * m + 2) - (2 * m + 1) = (stopAt N o (2 * m + 2) - 2 * m - 3) + 2 := by
      omega
    rw [h1, h2]
    have hc := Int.natCast_nonneg (stopAt N o (2 * m + 2) - 2 * m - 3)
    rw [max_eq_right (by omega)]
    push_cast
    ring
  · rw [if_neg hfcond, if_neg hfcond, List.foldl_nil]

theorem calc_chain_fold (N : Nat) (o : Option Nat) :
    calculateLongestRoad (chainGame N o) 0
      = (List.range N).foldl (fun acc i =>
          max acc (longestRoadDFS (chainGame N o) 0 (N + 1) (chainEdge i) [] 1)) 0 := by
  unfold calculateLongestRoad
  have hedges : (chainGame N o).board.edges = chainEdgesList N := rfl
  rw [hedges]
  have hlen : (chainEdgesList N).length = N := by
    unfold chainEdgesList
    rw [List.length_map, List.length_range]
  rw [hlen]
  unfold chainEdgesList
  rw [List.foldl_map]
  apply List.foldl_ext
  intro acc i _
  rw [if_pos ⟨rfl, rfl⟩]

theorem foldl_max_eq (v : Nat → Int) (B : Int) :
    ∀ (l : List Nat) (a : Int), a ≤ B → (∀ i ∈ l, v i ≤ B) →
      (a = B ∨ ∃ i ∈ l, v i = B) →
      l.foldl (fun acc i => max acc (v i)) a = B := by
  intro l
  induction l with
  | nil =>
    intro a _ _ hatt
    rcases hatt with h | ⟨i, hi, _⟩
    · exact h
    · cases hi
  | cons x rest ih =>
    intro a ha hbd hatt
    rw [List.foldl_cons]
    apply ih
    · exact max_le ha (hbd x (List.mem_cons_self _ _))
    · intro i hi
      exact hbd i (List.mem_cons_of_mem _ hi)
    · rcases hatt with h | ⟨i, hi, hv⟩
      · left
        rw [h]
        exact max_eq_left (hbd x (List.mem_cons_self _ _))
      · rcases List.mem_cons.mp hi with heq | hmem
        · left
          rw [heq] at hv
          rw [hv]
          exact max_eq_right ha
        · right
          exact ⟨i, hmem, hv⟩

theorem chain_value (N : Nat) (hN : 1 ≤ N) :
    calculateLongestRoad (chainGame N Option.none) 0 = (N : Int) := by
  rw [calc_chain_fold]
  have hpos : ∀ t, (Option.none : Option Nat) = some t → 1 ≤ t ∧ t < N := by
    intro t ht
    cases ht
  apply foldl_max_eq
  · exact Int.natCast_nonneg N
  · intro i hi
    have hiN : i < N := List.mem_range.mp hi
    show longestRoadDFS (chainGame N Option.none) 0 (N + 1) (chainEdge i) [] 1 ≤ (N : Int)
    obtain ⟨m, hm | hm⟩ : ∃ m, i = 2 * m ∨ i = 2 * m + 1 := ⟨i / 2, by omega⟩
    · subst hm
      rw [dfs_start_even N Option.none hpos m hiN (N + 1) (by omega)]
      have hst : stopAt N Option.none (2 * m) = N := rfl
      rw [hst]
      exact_mod_cast Nat.sub_le N (2 * m)
    · subst hm
      rw [dfs_start_odd_free N Option.none hpos m hiN (by intro h; cases h) (N + 1) (by omega)]
      by_cases hN2 : 2 * m + 2 < N
      · rw [if_pos ⟨fun h => Option.noConfusion h, hN2⟩]
        have hst : stopAt N Option.none (2 * m + 2) = N := rfl
        rw [hst]
        exact_mod_cast Nat.sub_le N (2 * m + 1)
      · rw [if_neg (fun h => hN2 h.2)]
        have h2N : (2 : Nat) ≤ N := by omega
        exact_mod_cast h2N
  · right
    refine ⟨0, List.mem_range.mpr (by omega), ?_⟩
    show longestRoadDFS (chainGame N Option.none) 0 (N + 1) (chainEdge 0) [] 1 = (N : Int)
    have h0 : (0 : Nat) = 2 * 0 := rfl
    rw [h0, dfs_start_even N Option.none hpos 0 (by omega) (N + 1) (by omega)]
    have hst : stopAt N Option.none (2 * 0) = N := rfl
    rw [hst]
    norm_num

theorem split_value (N b : Nat) (hb1 : 1 ≤ b) (hb2 : b < N) :
    calculateLongestRoad (chainGame N (some b)) 0 = ((max b (N - b) : Nat) : Int) := by
  rw [calc_chain_fold]
  have hpos : ∀ t, (some b : Option Nat) = some t → 1 ≤ t ∧ t < N := by
    intro t ht
    injection ht with ht
    subst ht
    exact ⟨hb1, hb2⟩
  apply foldl_max_eq
  · exact Int.natCast_nonneg _
  · intro i hi
    have hiN : i < N := List.mem_range.mp hi
    show longestRoadDFS (chainGame N (some b)) 0 (N + 1) (chainEdge i) [] 1
      ≤ ((max b (N - b) : Nat) : Int)
    obtain ⟨m, hm | hm⟩ : ∃ m, i = 2 * m ∨ i = 2 * m + 1 := ⟨i / 2, by omega⟩
    · subst hm
      rw [dfs_start_even N (some b) hpos m hiN (N + 1) (by omega)]
      have hst : stopAt N (some b) (2 * m) = if 2 * m < b then b else N := rfl
      rw [hst]
      by_cases h2mb : 2 * m < b
      · rw [if_pos h2mb]
        have hle : b - 2 * m ≤ max b (N - b) := le_trans (Nat.sub_le _ _) (le_max_left _ _)
        exact_mod_cast hle
      · rw [if_neg h2mb]
        have hle : N - 2 * m ≤ max b (N - b) := le_trans (by omega) (le_max_right b (N - b))
        exact_mod_cast hle
    · subst hm
      by_cases hob : b = 2 * m + 1
      · rw [dfs_start_odd_blocked N (some b) hpos m hiN (by rw [hob]) (N + 1) (by omega)]
        have hle : N - (2 * m + 1) ≤ max b (N - b) := by
          rw [← hob]
          exact le_max_right _ _
        exact_mod_cast hle
      · rw [dfs_start_odd_free N (some b) hpos m hiN
          (by intro h; exact hob (Option.some.inj h)) (N + 1) (by omega)]
        by_cases hcond : (some b : Option Nat) ≠ some (2 * m + 2) ∧ 2 * m + 2 < N
        · rw [if_pos hcond]
          have hbne : b ≠ 2 * m + 2 := fun h => hcond.1 (by rw [h])
          have hst : stopAt N (some b) (2 * m + 2) = if 2 * m + 2 < b then b else N := rfl
          rw [hst]
          by_cases h2b : 2 * m + 2 < b
          · rw [if_pos h2b]
            have hle : b - (2 * m + 1) ≤ max b (N - b) :=
              le_trans (Nat.sub_le _ _) (le_max_left _ _)
            exact_mod_cast hle
          · rw [if_neg h2b]
            have hle : N - (2 * m + 1) ≤ max b (N - b) :=
              le_trans (by omega) (le_max_right b (N - b))
            exact_mod_cast hle
        · rw [if_neg hcond]
          have hdisj : b = 2 * m + 2 ∨ N ≤ 2 * m + 2 := by
            by_contra hc
            push_neg at hc
            exact hcond ⟨fun h => hc.1 (Option.some.inj h), hc.2⟩
          have h2 : (2 : Nat) ≤ max b (N - b) := by
            rcases hdisj with h | h
            · exact le_trans (by omega) (le_max_left b (N - b))
            · exact le_trans (by omega) (le_max_right b (N - b))
          exact_mod_cast h2
  · right
    rcases max_choice b (N - b) with hmax | hmax
    · refine ⟨0, List.mem_range.mpr (by omega), ?_⟩
      show longestRoadDFS (chainGame N (some b)) 0 (N + 1) (chainEdge 0) [] 1
        = ((max b (N - b) : Nat) : Int)
      have h0 : (0 : Nat) = 2 * 0 := rfl
      rw [h0, dfs_start_even N (some b) hpos 0 (by omega) (N + 1) (by omega)]
      have hst : stopAt N (some b) (2 * 0) = if 2 * 0 < b then b else N := rfl
      rw [hst, if_pos (by omega), hmax]
      norm_num
    · refine ⟨b, List.mem_range.mpr hb2, ?_⟩
      show longestRoadDFS (chainGame N (some b)) 0 (N + 1) (chainEdge b) [] 1
        = ((max b (N - b) : Nat) : Int)
      obtain ⟨m, hm | hm⟩ : ∃ m, b = 2 * m ∨ b = 2 * m + 1 := ⟨b / 2, by omega⟩
      · subst hm
        rw [dfs_start_even N (some (2 * m)) hpos m hb2 (N + 1) (by omega)]
        have hst : stopAt N (some (2 * m)) (2 * m)
            = if 2 * m < 2 * m then 2 * m else N := rfl
        rw [hst, if_neg (by omega), hmax]
      · subst hm
        rw [dfs_start_odd_blocked N (some (2 * m + 1)) hpos m hb2 rfl (N + 1) (by omega)]
        rw [hmax]

/-- C3 (amended): for a straight unbranched chain of `N` roads of one player,
`calculateLongestRoad` returns exactly `N`; an opponent settlement stored at
the junction vertex entry between chain edges `b - 1` and `b` (the key the
chain's own edges reference) splits the count into `max b (N - b)`.
The original claim's "any opposing settlement on an interior vertex splits
the chain" fails for settlements stored under an alternate representation of
the same geometric vertex: see the counterexample
`c3_alternate_representation_blocker`. -/
theorem c3_longest_road_chain :
    (∀ N : Nat, 1 ≤ N → calculateLongestRoad (chainGame N Option.none) 0 = (N : Int))
    ∧ (∀ N b : Nat, 1 ≤ b → b < N →
        calculateLongestRoad (chainGame N (some b)) 0 = ((max b (N - b) : Nat) : Int)) :=
  ⟨fun N hN => chain_value N hN, fun N b h1 h2 => split_value N b h1 h2⟩

theorem c3_longest_road_chain_witness :
    (1 ≤ 3 ∧ calculateLongestRoad (chainGame 3 Option.none) 0 = ((3 : Nat) : Int))
    ∧ (1 ≤ 2 ∧ 2 < 5
        ∧ calculateLongestRoad (chainGame 5 (some 2)) 0 = ((max 2 (5 - 2) : Nat) : Int)) :=
  ⟨⟨by decide, c3_longest_road_chain.1 3 (by decide)⟩,
   ⟨by decide, by decide, c3_longest_road_chain.2 5 2 (by decide) (by decide)⟩⟩

end Catan
